import Mathlib

/-!
# rmid3tag: ID3 tag detection and minimal ID3v2.3 tag construction

A shallow embedding of `rmid3tag.go` and of the file copy and file name
guessing of `cmd/rmid3tag/main.go`.

* Bytes are natural numbers; a byte slice is a `List Nat` whose entries are
  below 256 in every concrete input.  Definitions that produce bytes reduce
  them modulo 256 where the Go code converts with `byte(...)`.
* Go's `int` is the 64-bit two's complement integer: `wrapInt` reduces an
  unbounded integer to that range wherever the Go code can overflow.
* A Go `(value, error)` result is a pair whose last component is an
  `Option GoError`; `none` is Go's `nil` error.
* A run-time panic (index out of range) is the outer `none` of an `Option`.
* A file opened read-only is the list of its bytes; `ReadAt` follows the
  contract of `os.File.ReadAt` on such a file.
-/

set_option maxRecDepth 100000

namespace Rmid3tag

/-! ## Go values -/

/-- The `error` values that can flow through the package. -/
inductive GoError where
  /-- The value `io.EOF`, returned by a read that ends before the buffer is full. -/
  | eof
  /-- The error `os.File.ReadAt` returns for a negative offset. -/
  | negativeOffset
  /-- The error of `os.OpenFile` when the named file cannot be opened. -/
  | openFailed
  /-- An error built by `fmt.Errorf` with the given message. -/
  | errorf (msg : String)
  /-- An error reported by the operating system for the named operation. -/
  | osError (op : String)
  deriving DecidableEq, Repr

/-- Two's complement wrap-around of Go's 64-bit `int` and `int64`. -/
def wrapInt (z : Int) : Int := Int.bmod z (2 ^ 64)

/-- The bytes of a Go string constant (its UTF-8 encoding). -/
def stringBytes (s : String) : List Nat :=
  s.data.flatMap fun c => (String.utf8EncodeChar c).map UInt8.toNat

/-! ## Synchsafe integers (`decodeSynchsafe`, `encodeSynchsafe`) -/

/-- Embedding of `decodeSynchsafe(data []byte, size int) int`.

    for i:=0; i<size; i++ {
      result += (int(data[i]) & 0x7f) << uint(7 * (size-1-i))
    }

The loop index runs over `List.range size`; `data[i]` beyond the end of the
slice panics, which is the result `none`.  Both the shift and the addition
are 64-bit `int` operations. -/
def decodeSynchsafe (data : List Nat) (size : Nat) : Option Int :=
  (List.range size).foldlM
    (fun result i => (data.get? i).map fun b =>
      wrapInt (result + wrapInt (((b &&& 0x7f) <<< (7 * (size - 1 - i)) : Nat) : Int)))
    0

/-- Embedding of `encodeSynchsafe(data int, size int) []byte`.

    for i:=0; i<size; i++ {
      result[i] = byte((data & 0x7f) >> uint(7 * (size-1-i)))
    }

`data & 0x7f` on a two's complement integer is `data % 128` (the
non-negative remainder); the mask is applied before the shift, as in the
source.  `byte(...)` is the remainder modulo 256. -/
def encodeSynchsafe (data : Int) (size : Nat) : List Nat :=
  (List.range size).map fun i => (((data % 128) >>> (7 * (size - 1 - i))) % 256).toNat

/-! ## Tag construction -/

/-- Modelled from the spec: the UTF-16 encoder of `golang.org/x/text`
(`unicode.UTF16(unicode.BigEndian, unicode.UseBOM).NewEncoder()`) is not part
of the sources.  Per the spec it "produces UTF-16BE code units prefixed with a
byte-order-mark (U+FEFF encoded big-endian as `0xFE 0xFF`)".  One code point
gives one big-endian 16-bit unit below U+10000 and a surrogate pair above. -/
def utf16BEUnits (c : Char) : List Nat :=
  let r := c.toNat
  if r < 0x10000 then [r >>> 8, r &&& 0xff]
  else
    let hi := 0xD800 + ((r - 0x10000) >>> 10)
    let lo := 0xDC00 + ((r - 0x10000) &&& 0x3ff)
    [hi >>> 8, hi &&& 0xff, lo >>> 8, lo &&& 0xff]

/-- Embedding of `toUTF16BEWithBOM(s string) ([]byte, error)`.  The text is a
sequence of Unicode scalar values (a valid UTF-8 Go string), on which the
encoder does not fail. -/
def toUTF16BEWithBOM (s : String) : List Nat × Option GoError :=
  ([0xfe, 0xff] ++ s.data.flatMap utf16BEUnits, none)

/-- Embedding of `encodeTextFrameData(s string) ([]byte, error)`. -/
def encodeTextFrameData (s : String) : List Nat × Option GoError :=
  match toUTF16BEWithBOM s with
  | (_, some err) => ([], some err)
  | (u16bytes, none) => ([0x1] ++ u16bytes ++ [0x0, 0x0], none)

/-- Embedding of `CreateTextFrame(id, text string) ([]byte, error)`; `id` is
given by its bytes. -/
def CreateTextFrame (id : List Nat) (text : String) : List Nat × Option GoError :=
  match encodeTextFrameData text with
  | (_, some err) => ([], some err)
  | (data, none) =>
    let size := data.length
    (id ++ [0xff &&& (size >>> 24), 0xff &&& (size >>> 16), 0xff &&& (size >>> 8),
            0xff &&& size] ++ [0x0, 0x0] ++ data, none)

/-- Embedding of `CreateTitleFrame`. -/
def CreateTitleFrame (text : String) : List Nat × Option GoError :=
  CreateTextFrame (stringBytes "TIT2") text

/-- Embedding of `CreateArtistFrame`. -/
def CreateArtistFrame (text : String) : List Nat × Option GoError :=
  CreateTextFrame (stringBytes "TPE1") text

/-- Embedding of `CreateID3V2Tag(frames ...[]byte) []byte`. -/
def CreateID3V2Tag (frames : List (List Nat)) : List Nat :=
  let size : Int := frames.foldl (fun size frame => size + (frame.length : Int)) 0
  stringBytes "ID3" ++ [0x3, 0x0, 0x0] ++ encodeSynchsafe size 4 ++ frames.flatten

/-- Embedding of `CreateMinimumTag(title, artist string) ([]byte, error)`. -/
def CreateMinimumTag (title artist : String) : List Nat × Option GoError :=
  match CreateTitleFrame title with
  | (_, some err) => ([], some err)
  | (tf, none) =>
    match CreateArtistFrame artist with
    | (_, some err) => ([], some err)
    | (af, none) => (CreateID3V2Tag [tf, af], none)

/-! ## Tag detection -/

/-- A file opened read-only: the list of its bytes. -/
abbrev File := List Nat

/-- The files that can be opened, by name; `none` when `os.OpenFile` fails. -/
abbrev FileSystem := String → Option File

/-- The call `r.ReadAt(b, off)` on an `os.File`, for a zeroed buffer `b` of
`len` bytes: the buffer after the call, the count `n` of bytes read, and the
error.  A negative offset is an error; a read that reaches the end of the file
before the buffer is full returns the bytes read and `io.EOF`.  Where
`off + len` exceeds the range of `int64` the operating system refuses the read
with another non-nil error; the callers here test the error only against
`nil`, and such offsets lie beyond the end of every file. -/
def ReadAt (r : File) (len : Nat) (off : Int) : List Nat × Int × Option GoError :=
  if off < 0 then (List.replicate len 0, 0, some GoError.negativeOffset)
  else
    let got := (r.drop off.toNat).take len
    if got.length = len then (got, (got.length : Int), none)
    else (got ++ List.replicate (len - got.length) 0, (got.length : Int), some GoError.eof)

/-- The `Stat` structure: file size, tag flags and the MPEG frame offset. -/
structure Stat where
  Size : Int
  V1TagExist : Bool
  V2TagExist : Bool
  OffsetMPEGFrame : Int
  deriving DecidableEq, Repr

/-- Embedding of `(s *Stat) SizeOfMPEGFrame() int64`. -/
def Stat.SizeOfMPEGFrame (s : Stat) : Int :=
  if s.V1TagExist then s.Size - s.OffsetMPEGFrame - 128
  else s.Size - s.OffsetMPEGFrame

/-- Embedding of `isExistMP3Frame(r io.ReaderAt, offset int64) (bool, error)`.
`bytes.HasPrefix(data, p)` is `p.isPrefixOf data`. -/
def isExistMP3Frame (r : File) (offset : Int) : Bool × Option GoError :=
  match ReadAt r 2 offset with
  | (data, n, err) =>
    if n ≠ 2 ∨ err ≠ none then (false, err)
    else if [[0xff, 0xfb], [0xff, 0xfa]].any (fun p => p.isPrefixOf data) then (true, none)
    else (false, none)

/-- Embedding of `isExistID3v1Tag(r io.ReaderAt, offset int64) (bool, error)`. -/
def isExistID3v1Tag (r : File) (offset : Int) : Bool × Option GoError :=
  match ReadAt r 3 offset with
  | (marker, n, err) =>
    if n ≠ 3 ∨ err ≠ none then (false, err)
    else if marker ≠ stringBytes "TAG" then (false, none)
    else (true, none)

/-- The loop `for ;; size++ { ... }` of `getID3v2TagSize`: probe for a frame
sync pair at `size`, stop with the error "mpeg frame not found" when the probe
fails, stop with success when it matches, otherwise go on at `size + 1`.  The
recursion is well founded on the distance from `size` to the end of the file:
a probe that returns no error has read two bytes at `size`.  The offset stays
at or below the file length, so `size++` does not wrap. -/
def scanMPEGFrame (r : File) (isExist : Bool) (size : Int) : Bool × Int × Option GoError :=
  match h : isExistMP3Frame r size with
  | (_, some _) => (isExist, size, some (GoError.errorf "mpeg frame not found"))
  | (true, none) => (isExist, size, none)
  | (false, none) => scanMPEGFrame r isExist (size + 1)
termination_by ((r.length : Int) - size).toNat
decreasing_by
  have hlt : size < (r.length : Int) := by
    by_contra hge
    simp only [isExistMP3Frame, ReadAt] at h
    split at h
    · simp at h
    · have hd : List.drop size.toNat r = [] := List.drop_eq_nil_of_le (by omega)
      simp [hd] at h
  omega

/-- Embedding of `getID3v2TagSize(r io.ReaderAt) (isExist bool, size int64, err error)`.
The outer `none` is a panic of `decodeSynchsafe`. -/
def getID3v2TagSize (r : File) : Option (Bool × Int × Option GoError) :=
  match ReadAt r 4 0 with
  | (marker, n, err) =>
    if n ≠ 4 ∨ err ≠ none then some (false, 0, err)
    else
      let hdr : Option Int :=
        if marker.take 3 ≠ stringBytes "ID3" then
          if marker.drop 1 = stringBytes "ID3" then some 1 else none
        else some 0
      match hdr with
      | none => some (false, 0, none)
      | some offset =>
        match ReadAt r 4 (6 + offset) with
        | (data, n, err) =>
          if n ≠ 4 ∨ err ≠ none then some (true, 0, err)
          else
            match decodeSynchsafe data 4 with
            | none => none
            | some size => some (scanMPEGFrame r true (size + (10 + offset)))

/-- Embedding of `GetStat(filename string) (stat *Stat, err error)`.  The
returned `Stat` is the one filled in so far, also when an error is returned.
`f.Stat()` on the opened file gives the length of its byte list and does not
fail; the outer `none` is a panic inside `getID3v2TagSize`. -/
def GetStat (fs : FileSystem) (filename : String) : Option (Stat × Option GoError) :=
  let stat : Stat := { Size := 0, V1TagExist := false, V2TagExist := false, OffsetMPEGFrame := 0 }
  match fs filename with
  | none => some (stat, some GoError.openFailed)
  | some f =>
    let stat := { stat with Size := (f.length : Int) }
    match getID3v2TagSize f with
    | none => none
    | some (isExist, size, err) =>
      let stat := { stat with V2TagExist := isExist, OffsetMPEGFrame := size }
      if err ≠ none then some (stat, err)
      else
        match isExistID3v1Tag f (stat.Size - 128) with
        | (v1, err) =>
          let stat := { stat with V1TagExist := v1 }
          if err ≠ none then some (stat, err)
          else some (stat, none)

/-- The two bytes at offset `p` of the file are a frame sync pair
(`0xFF 0xFB` or `0xFF 0xFA`). -/
def syncPairAt (r : File) (p : Nat) : Prop :=
  (r.drop p).take 2 = [0xff, 0xfb] ∨ (r.drop p).take 2 = [0xff, 0xfa]

instance (r : File) (p : Nat) : Decidable (syncPairAt r p) := by
  unfold syncPairAt; infer_instance

/-- An ID3v2 header is detected at offset `h`: the marker "ID3" is at offset 0,
or it is not and the marker is at offset 1. -/
def headerAt (r : File) (h : Nat) : Prop :=
  (h = 0 ∧ r.take 3 = stringBytes "ID3") ∨
  (h = 1 ∧ r.take 3 ≠ stringBytes "ID3" ∧ (r.drop 1).take 3 = stringBytes "ID3")

instance (r : File) (h : Nat) : Decidable (headerAt r h) := by
  unfold headerAt; infer_instance

/-! ## Sample files -/

/-- An ID3v2 tag at offset 0 that declares 2 body bytes, followed by 3 zero
bytes of undeclared padding, then MPEG frames; 128 further bytes of audio. -/
def paddedFile : File :=
  stringBytes "ID3" ++ [3, 0, 0, 0, 0, 0, 2] ++ [0x41, 0x42] ++ [0, 0, 0] ++
    [0xff, 0xfb, 0x90, 0x00] ++ List.replicate 128 0

/-- The file `paddedFile` behind one stray leading byte. -/
def strayByteFile : File := 0x00 :: paddedFile

/-- A file without any tag: MPEG frames only. -/
def plainFile : File := [0xff, 0xfb, 0x90, 0x00] ++ List.replicate 200 0

/-- An empty ID3v2 tag, one frame header, padding, and a 128-byte ID3v1 tag. -/
def taggedFile : File :=
  stringBytes "ID3" ++ [3, 0, 0, 0, 0, 0, 0] ++ [0xff, 0xfa, 0x90, 0x00] ++
    List.replicate 100 0 ++ stringBytes "TAG" ++ List.replicate 125 0x20

/-- An ID3v2 tag that declares 2 body bytes, followed by bytes among which
there is no frame sync pair. -/
def noFrameFile : File :=
  stringBytes "ID3" ++ [3, 0, 0, 0, 0, 0, 2] ++ [0x41, 0x42, 0xff, 0x00, 0xfb, 0xff]

/-- A file of three bytes. -/
def shortFile : File := [0xff, 0xfb, 0x90]

/-- An empty ID3v2 tag directly followed by a 128-byte ID3v1 tag whose title
field starts with the bytes `0xFF 0xFB`; there is no audio data. -/
def tagOnlyFile : File :=
  stringBytes "ID3" ++ [3, 0, 0, 0, 0, 0, 0] ++ stringBytes "TAG" ++ [0xff, 0xfb] ++
    List.replicate 123 0x20

/-- A title of 43 characters. -/
def longTitle : String := "Symphony No. 9 in D minor, Op. 125 (Choral)"

/-- An artist of 23 characters. -/
def longArtist : String := "Berliner Philharmoniker"

/-- A file system in which every name opens the given file. -/
def singleFile (f : File) : FileSystem := fun _ => some f


/-! ## Counting probes, and the spec's sums -/

/-- The loop of `getID3v2TagSize` together with a counter of its calls of
`isExistMP3Frame`: the same three branches as `scanMPEGFrame`, each probe
counted once. -/
def scanMPEGFrameCount (r : File) (isExist : Bool) (size : Int) :
    (Bool × Int × Option GoError) × Nat :=
  match h : isExistMP3Frame r size with
  | (_, some _) => ((isExist, size, some (GoError.errorf "mpeg frame not found")), 1)
  | (true, none) => ((isExist, size, none), 1)
  | (false, none) =>
    ((scanMPEGFrameCount r isExist (size + 1)).1, (scanMPEGFrameCount r isExist (size + 1)).2 + 1)
termination_by ((r.length : Int) - size).toNat
decreasing_by
  all_goals
    have hlt : size < (r.length : Int) := by
      by_contra hge
      simp only [isExistMP3Frame, ReadAt] at h
      split at h
      · simp at h
      · have hd : List.drop size.toNat r = [] := List.drop_eq_nil_of_le (by omega)
        simp [hd] at h
    omega

/-- The sum the spec gives for `decodeSynchsafe`: each byte's low 7 bits as a
big-endian digit, `Σ (byte[i] & 0x7F) << (7·(N−1−i))` over `i` in `[0, N)`. -/
def synchsafeSum (data : List Nat) (N : Nat) : Nat :=
  ((List.range N).map fun i => (data.getD i 0 &&& 0x7f) <<< (7 * (N - 1 - i))).sum

/-- The number a sequence of bytes denotes in plain big-endian order. -/
def bigEndian (bs : List Nat) : Nat := bs.foldl (fun acc b => acc * 256 + b) 0

/-! ## The command `rmid3tag` -/

/-- The file system after `name` has been given the content `content`. -/
def writeFile (fs : FileSystem) (name : String) (content : File) : FileSystem :=
  fun n => if n = name then some content else fs n

/-- The call `io.CopyN(dst, src, n)` with `src` positioned at `pos`: the bytes
written to `dst`, their count, and the error.  As in the library, fewer than
`n` bytes written without a read error is reported as `io.EOF`, and a
negative `n` copies nothing and reports no error. -/
def CopyN (src : File) (pos : Nat) (n : Int) : List Nat × Int × Option GoError :=
  let bytes := (src.drop pos).take n.toNat
  let written : Int := (bytes.length : Int)
  if written = n then (bytes, n, none)
  else if written < n then (bytes, written, some GoError.eof)
  else (bytes, written, none)

/-- Embedding of `Copy(filename string, offset, size int64, tag []byte)
(tempfile string, err error)` of `cmd/rmid3tag/main.go`, passing the file
system through.  `tmp` is the outcome of `ioutil.TempFile`: the name of the
new, empty file it created, or `none` when it failed.  `f.Seek(offset, 0)`
fails for a negative offset; writes to the temporary file do not fail. -/
def Copy (fs : FileSystem) (tmp : Option String) (filename : String) (offset size : Int)
    (tag : List Nat) : (String × Option GoError) × FileSystem :=
  match fs filename with
  | none => (("", some GoError.openFailed), fs)
  | some f =>
    match tmp with
    | none => (("", some (GoError.osError "createtemp")), fs)
    | some tempfile =>
      let fs := writeFile fs tempfile []
      let head : List Nat := if tag.length > 0 then tag else []
      let fs := writeFile fs tempfile head
      if offset < 0 then ((tempfile, some (GoError.osError "seek")), fs)
      else
        match CopyN f offset.toNat size with
        | (bytes, n, err) =>
          let fs := writeFile fs tempfile (head ++ bytes)
          if n ≠ size ∨ err ≠ none then ((tempfile, err), fs)
          else ((tempfile, none), fs)

/-- The call `strings.Index(s, substr)` on byte strings, scanning from a
position that is `i` bytes into the original string: the index of the first
instance of `substr`, or -1 when there is none. -/
def indexFrom (substr : List Nat) : List Nat → Nat → Int
  | [], i => if substr.isPrefixOf [] then (i : Int) else -1
  | c :: cs, i => if substr.isPrefixOf (c :: cs) then (i : Int) else indexFrom substr cs (i + 1)

/-- The call `strings.Index(s, substr)`. -/
def Index (s substr : List Nat) : Int := indexFrom substr s 0

/-- Embedding of `guessFromFilename(filename string) (title, artist string)` of
`cmd/rmid3tag/main.go`; strings are byte strings, `filename[0:index]` is
`take` and `filename[index+3:len(filename)]` is `drop`. -/
def guessFromFilename (filename : List Nat) : List Nat × List Nat :=
  let index := Index filename (stringBytes " - ")
  if index = -1 ∨ index = 0 ∨ index + 3 = (filename.length : Int) then
    (stringBytes "-", stringBytes "-")
  else
    let artist := filename.take index.toNat
    let title := filename.drop (index + 3).toNat
    (title, artist)

/-- The file `paddedFile` with the two bytes of its tag body replaced by a
frame sync pair. -/
def syncInBodyFile : File :=
  stringBytes "ID3" ++ [3, 0, 0, 0, 0, 0, 2] ++ [0xff, 0xfb] ++ [0, 0, 0] ++
    [0xff, 0xfb, 0x90, 0x00] ++ List.replicate 128 0

/-- A text of 2^31 characters `a`. -/
def hugeText : String := String.mk (List.replicate 2147483648 'a')

/-! ## Reading -/

theorem length_take_drop (r : File) (len p : Nat) :
    ((r.drop p).take len).length = min len (r.length - p) := by
  simp

theorem ReadAt_neg (r : File) (len : Nat) (off : Int) (h : off < 0) :
    ReadAt r len off = (List.replicate len 0, 0, some GoError.negativeOffset) := by
  simp [ReadAt, h]

theorem ReadAt_full (r : File) (len : Nat) (off : Int) (h0 : 0 ≤ off)
    (h : off + len ≤ r.length) :
    ReadAt r len off = ((r.drop off.toNat).take len, (len : Int), none) := by
  have hl : ((r.drop off.toNat).take len).length = len := by
    rw [length_take_drop]; omega
  simp only [ReadAt, not_lt.mpr h0, if_false, hl, if_true]

theorem ReadAt_short (r : File) (len : Nat) (off : Int) (h0 : 0 ≤ off) (hlen : 0 < len)
    (h : (r.length : Int) < off + len) :
    (ReadAt r len off).2.1 < len ∧ (ReadAt r len off).2.2 = some GoError.eof := by
  have hl : ((r.drop off.toNat).take len).length < len := by
    rw [length_take_drop]; omega
  simp only [ReadAt, not_lt.mpr h0, if_false, Nat.ne_of_lt hl]
  exact ⟨by exact_mod_cast hl, trivial⟩

/-! ## The frame sync probe -/

theorem isExistMP3Frame_neg (r : File) (off : Int) (h : off < 0) :
    isExistMP3Frame r off = (false, some GoError.negativeOffset) := by
  simp [isExistMP3Frame, ReadAt_neg r 2 off h]

theorem isExistMP3Frame_short (r : File) (off : Int) (h0 : 0 ≤ off)
    (h : (r.length : Int) < off + 2) :
    isExistMP3Frame r off = (false, some GoError.eof) := by
  obtain ⟨h1, h2⟩ := ReadAt_short r 2 off h0 (by decide) (by exact_mod_cast h)
  unfold isExistMP3Frame
  rcases hr : ReadAt r 2 off with ⟨data, n, err⟩
  rw [hr] at h1 h2
  simp only at h1 h2
  subst h2
  simp

theorem isExistMP3Frame_full (r : File) (off : Int) (h0 : 0 ≤ off)
    (h : off + 2 ≤ (r.length : Int)) :
    (syncPairAt r off.toNat → isExistMP3Frame r off = (true, none)) ∧
    (¬ syncPairAt r off.toNat → isExistMP3Frame r off = (false, none)) := by
  unfold isExistMP3Frame
  rw [ReadAt_full r 2 off h0 (by exact_mod_cast h)]
  have hl : ((r.drop off.toNat).take 2).length = 2 := by
    rw [length_take_drop]; omega
  unfold syncPairAt
  match hd : (r.drop off.toNat).take 2, hl with
  | [a, b], _ =>
    by_cases h1 : a = 255 <;> by_cases h2 : b = 251 <;> by_cases h3 : b = 250 <;>
      simp [List.isPrefixOf, h1, h2, h3] <;> omega


/-! ## The scan for the first frame sync pair -/

theorem scanMPEGFrame_found_here (r : File) (ex : Bool) (p : Nat) (h : syncPairAt r p) :
    scanMPEGFrame r ex (p : Int) = (ex, (p : Int), none) := by
  have hlen : (p : Int) + 2 ≤ (r.length : Int) := by
    have : ((r.drop p).take 2).length = 2 := by
      rcases h with h | h <;> rw [h] <;> rfl
    rw [length_take_drop] at this
    omega
  have hp := (isExistMP3Frame_full r p (by omega) hlen).1 (by simpa using h)
  rw [scanMPEGFrame]
  split
  · rename_i heq; rw [hp] at heq; simp at heq
  · rfl
  · rename_i heq; rw [hp] at heq; simp at heq

theorem scanMPEGFrame_step (r : File) (ex : Bool) (p : Nat) (hlen : p + 2 ≤ r.length)
    (h : ¬ syncPairAt r p) :
    scanMPEGFrame r ex (p : Int) = scanMPEGFrame r ex ((p : Int) + 1) := by
  have hp := (isExistMP3Frame_full r p (by omega) (by exact_mod_cast hlen)).2 (by simpa using h)
  rw [scanMPEGFrame]
  split
  · rename_i heq; rw [hp] at heq; simp at heq
  · rename_i heq; rw [hp] at heq; simp at heq
  · rfl

theorem scanMPEGFrame_eof (r : File) (ex : Bool) (p : Nat) (hlen : r.length < p + 2) :
    scanMPEGFrame r ex (p : Int) = (ex, (p : Int), some (GoError.errorf "mpeg frame not found")) := by
  have hp := isExistMP3Frame_short r p (by omega) (by exact_mod_cast hlen)
  rw [scanMPEGFrame]
  split
  · rfl
  · rename_i heq; rw [hp] at heq; simp at heq
  · rename_i heq; rw [hp] at heq; simp at heq

/-- The scan started at `start` returns the first offset at or after `start`
that holds a frame sync pair. -/
theorem scanMPEGFrame_first (r : File) (ex : Bool) (k start : Nat)
    (hsync : syncPairAt r (start + k))
    (hmin : ∀ q, start ≤ q → q < start + k → ¬ syncPairAt r q) :
    scanMPEGFrame r ex (start : Int) = (ex, ((start + k : Nat) : Int), none) := by
  induction k generalizing start with
  | zero => simpa using scanMPEGFrame_found_here r ex start (by simpa using hsync)
  | succ k ih =>
    have hlen : start + (k + 1) + 2 ≤ r.length := by
      have : ((r.drop (start + (k + 1))).take 2).length = 2 := by
        rcases hsync with h | h <;> rw [h] <;> rfl
      rw [length_take_drop] at this
      omega
    rw [scanMPEGFrame_step r ex start (by omega) (hmin start (le_refl _) (by omega))]
    have := ih (start + 1) (by rwa [show start + 1 + k = start + (k + 1) by omega])
      (fun q hq1 hq2 => hmin q (by omega) (by omega))
    rw [show ((start : Int) + 1) = ((start + 1 : Nat) : Int) by push_cast; rfl, this]
    congr 2
    omega

/-- Without a frame sync pair at or after `start` the scan ends with the
error "mpeg frame not found", at the first offset where two bytes cannot be read. -/
theorem scanMPEGFrame_none (r : File) (ex : Bool) (start : Nat)
    (hno : ∀ q, start ≤ q → ¬ syncPairAt r q) :
    scanMPEGFrame r ex (start : Int) =
      (ex, ((max start (r.length - 1) : Nat) : Int), some (GoError.errorf "mpeg frame not found")) := by
  generalize hd : r.length - 1 - start = d
  induction d generalizing start with
  | zero =>
    rw [scanMPEGFrame_eof r ex start (by omega)]
    congr 2
    omega
  | succ d ih =>
    rw [scanMPEGFrame_step r ex start (by omega) (hno start (le_refl _))]
    have := ih (start + 1) (fun q hq => hno q (by omega)) (by omega)
    rw [show ((start : Int) + 1) = ((start + 1 : Nat) : Int) by push_cast; rfl, this]
    congr 2
    omega


/-! ## The size field -/

theorem wrapInt_of_small (z : Int) (h0 : 0 ≤ z) (h1 : z < 9223372036854775808) :
    wrapInt z = z := by
  unfold wrapInt Int.bmod
  have : z % ((2 ^ 64 : Nat) : Int) = z := Int.emod_eq_of_lt h0 (by norm_num; omega)
  rw [this]
  norm_num
  omega

theorem decodeSynchsafe_four (a b c d : Nat) :
    decodeSynchsafe [a, b, c, d] 4 =
      some (((a % 128) * 2 ^ 21 + (b % 128) * 2 ^ 14 + (c % 128) * 2 ^ 7 + d % 128 : Nat) : Int) := by
  have hm : ∀ x : Nat, x &&& 0x7f = x % 128 := fun x =>
    Nat.and_pow_two_sub_one_eq_mod x 7
  have ha := Nat.mod_lt a (show 128 > 0 by decide)
  have hb := Nat.mod_lt b (show 128 > 0 by decide)
  have hc := Nat.mod_lt c (show 128 > 0 by decide)
  have hd := Nat.mod_lt d (show 128 > 0 by decide)
  simp only [decodeSynchsafe, List.range_succ, List.range_zero, List.nil_append, List.cons_append,
    List.foldlM_cons, List.foldlM_nil, hm, Nat.shiftLeft_eq]
  simp only [List.get?_eq_getElem?, List.getElem?_cons_zero, List.getElem?_cons_succ,
    Option.map_some', Option.some_bind, Option.bind_eq_bind, pure]
  norm_num
  have ha0 : (0 : Int) ≤ (a : Int) % 128 := by omega
  have hb0 : (0 : Int) ≤ (b : Int) % 128 := by omega
  have hc0 : (0 : Int) ≤ (c : Int) % 128 := by omega
  have hd0 : (0 : Int) ≤ (d : Int) % 128 := by omega
  have ha1 : (a : Int) % 128 < 128 := by omega
  have hb1 : (b : Int) % 128 < 128 := by omega
  have hc1 : (c : Int) % 128 < 128 := by omega
  have hd1 : (d : Int) % 128 < 128 := by omega
  generalize (a : Int) % 128 = x at *
  generalize (b : Int) % 128 = y at *
  generalize (c : Int) % 128 = z at *
  generalize (d : Int) % 128 = w at *
  rw [wrapInt_of_small (x * 2097152) (by linarith) (by linarith),
    wrapInt_of_small (y * 16384) (by linarith) (by linarith),
    wrapInt_of_small (z * 128) (by linarith) (by linarith),
    wrapInt_of_small w (by linarith) (by linarith),
    wrapInt_of_small (x * 2097152) (by linarith) (by linarith),
    wrapInt_of_small (x * 2097152 + y * 16384) (by linarith) (by linarith),
    wrapInt_of_small (x * 2097152 + y * 16384 + z * 128) (by linarith) (by linarith),
    wrapInt_of_small _ (by linarith) (by linarith)]


/-- What `encodeSynchsafe(v, 4)` computes: the mask is applied before the
shift, so the first three bytes are 0 and the last is `v & 0x7f`. -/
theorem encodeSynchsafe_four (v : Int) :
    encodeSynchsafe v 4 = [0, 0, 0, (v % 128).toNat] := by
  have h0 : 0 ≤ v % 128 := Int.emod_nonneg v (by norm_num)
  have h1 : v % 128 < 128 := Int.emod_lt_of_pos v (by norm_num)
  have hz : ∀ k : Nat, 7 ≤ k → (v % 128) >>> k = 0 := by
    intro k hk
    rw [Int.shiftRight_eq_div_pow]
    apply Int.ediv_eq_zero_of_lt h0
    have : (2 : Nat) ^ 7 ≤ 2 ^ k := Nat.pow_le_pow_right (by norm_num) hk
    have : ((2 ^ 7 : Nat) : Int) ≤ ((2 ^ k : Nat) : Int) := by exact_mod_cast this
    calc v % 128 < ((2 ^ 7 : Nat) : Int) := by norm_num; exact h1
      _ ≤ _ := this
  have hs : (v % 128) >>> (7 * (4 - 1 - 3) : Nat) = v % 128 := by
    rw [Int.shiftRight_eq_div_pow]; norm_num
  have hm : v % 128 % 256 = v % 128 := Int.emod_eq_of_lt h0 (by omega)
  simp only [encodeSynchsafe, List.range_succ, List.range_zero, List.nil_append, List.cons_append,
    List.map_cons, List.map_nil]
  rw [hz (7 * (4 - 1 - 0)) (by norm_num), hz (7 * (4 - 1 - 1)) (by norm_num),
    hz (7 * (4 - 1 - 2)) (by norm_num), hs, hm]
  rfl

/-- Decoding `encodeSynchsafe(v, 4)` gives `v & 0x7f`, the low 7 bits of `v`. -/
theorem decodeSynchsafe_encodeSynchsafe_four (v : Int) :
    decodeSynchsafe (encodeSynchsafe v 4) 4 = some (v % 128) := by
  have h0 : 0 ≤ v % 128 := Int.emod_nonneg v (by norm_num)
  have h1 : v % 128 < 128 := Int.emod_lt_of_pos v (by norm_num)
  rw [encodeSynchsafe_four, decodeSynchsafe_four]
  congr 1
  omega

theorem decodeSynchsafe_four_length (data : List Nat) (S : Int)
    (h : decodeSynchsafe data 4 = some S) : 4 ≤ data.length := by
  rcases data with _ | ⟨a, _ | ⟨b, _ | ⟨c, _ | ⟨d, t⟩⟩⟩⟩
  · simp [decodeSynchsafe, List.range_succ] at h
  · simp [decodeSynchsafe, List.range_succ] at h
  · simp [decodeSynchsafe, List.range_succ] at h
  · simp [decodeSynchsafe, List.range_succ] at h
  · simp

theorem decodeSynchsafe_four_range (data : List Nat) (S : Int)
    (h : decodeSynchsafe data 4 = some S) (hl : data.length = 4) : 0 ≤ S ∧ S < 2 ^ 28 := by
  rcases data with _ | ⟨a, _ | ⟨b, _ | ⟨c, _ | ⟨d, _ | ⟨e, t⟩⟩⟩⟩⟩ <;> simp at hl
  rw [decodeSynchsafe_four] at h
  have ha := Nat.mod_lt a (show 128 > 0 by decide)
  have hb := Nat.mod_lt b (show 128 > 0 by decide)
  have hc := Nat.mod_lt c (show 128 > 0 by decide)
  have hd := Nat.mod_lt d (show 128 > 0 by decide)
  simp only [Option.some.injEq] at h
  subst h
  constructor
  · positivity
  · norm_num
    omega

/-! ## The ID3v2 header -/

theorem ReadAt_marker (r : File) (h : 4 ≤ r.length) :
    ReadAt r 4 0 = (r.take 4, 4, none) := by
  have := ReadAt_full r 4 0 (le_refl _) (by simp; exact_mod_cast h)
  simpa using this

theorem getID3v2TagSize_short (r : File) (h : r.length < 4) :
    getID3v2TagSize r = some (false, 0, some GoError.eof) := by
  obtain ⟨h1, h2⟩ := ReadAt_short r 4 0 (le_refl _) (by decide) (by simp; exact_mod_cast h)
  unfold getID3v2TagSize
  rcases hr : ReadAt r 4 0 with ⟨data, n, err⟩
  rw [hr] at h1 h2
  simp only at h1 h2
  subst h2
  simp

theorem getID3v2TagSize_no_header (r : File) (h : 4 ≤ r.length)
    (h0 : r.take 3 ≠ stringBytes "ID3") (h1 : (r.drop 1).take 3 ≠ stringBytes "ID3") :
    getID3v2TagSize r = some (false, 0, none) := by
  unfold getID3v2TagSize
  rw [ReadAt_marker r h]
  have e0 : (r.take 4).take 3 = r.take 3 := by simp [List.take_take]
  have e1 : (r.take 4).drop 1 = (r.drop 1).take 3 := by simp [List.drop_take]
  simp [-List.drop_one, e0, e1, h0, h1]

theorem getID3v2TagSize_header_short (r : File) (h : Nat) (hh : headerAt r h)
    (h4 : 4 ≤ r.length) (hlen : r.length < h + 10) :
    getID3v2TagSize r = some (true, 0, some GoError.eof) := by
  have e0 : (r.take 4).take 3 = r.take 3 := by simp [List.take_take]
  have e1 : (r.take 4).drop 1 = (r.drop 1).take 3 := by simp [List.drop_take]
  unfold getID3v2TagSize
  rw [ReadAt_marker r h4]
  rcases hh with ⟨rfl, hm⟩ | ⟨rfl, hm0, hm1⟩
  · obtain ⟨a, b⟩ := ReadAt_short r 4 6 (by omega) (by decide) (by push_cast; omega)
    rcases hr : ReadAt r 4 6 with ⟨data, n, err⟩
    rw [hr] at b
    simp only at b
    subst b
    simp [-List.drop_one, e0, hm, hr]
  · obtain ⟨a, b⟩ := ReadAt_short r 4 7 (by omega) (by decide) (by push_cast; omega)
    rcases hr : ReadAt r 4 7 with ⟨data, n, err⟩
    rw [hr] at b
    simp only at b
    subst b
    simp [-List.drop_one, e0, e1, hm0, hm1, hr]

theorem getID3v2TagSize_header (r : File) (h : Nat) (S : Int) (hh : headerAt r h)
    (hS : decodeSynchsafe ((r.drop (h + 6)).take 4) 4 = some S) :
    getID3v2TagSize r = some (scanMPEGFrame r true (S + (10 + (h : Int)))) := by
  have hl := decodeSynchsafe_four_length _ _ hS
  rw [length_take_drop] at hl
  have h4 : 4 ≤ r.length := by omega
  have e0 : (r.take 4).take 3 = r.take 3 := by simp [List.take_take]
  have e1 : (r.take 4).drop 1 = (r.drop 1).take 3 := by simp [List.drop_take]
  unfold getID3v2TagSize
  rw [ReadAt_marker r h4]
  rcases hh with ⟨rfl, hm⟩ | ⟨rfl, hm0, hm1⟩
  · have hr := ReadAt_full r 4 6 (by omega) (by push_cast; omega)
    simp only [show ((6 : Int)).toNat = 0 + 6 by rfl] at hr
    simp [-List.drop_one, e0, hm, hr, hS]
  · have hr := ReadAt_full r 4 7 (by omega) (by push_cast; omega)
    simp only [show ((7 : Int)).toNat = 1 + 6 by rfl] at hr
    simp [-List.drop_one, e0, e1, hm0, hm1, hr, hS]


theorem syncPairAt_length (r : File) (p : Nat) (h : syncPairAt r p) : p + 2 ≤ r.length := by
  have : ((r.drop p).take 2).length = 2 := by
    rcases h with h | h <;> rw [h] <;> rfl
  rw [length_take_drop] at this
  omega

/-- What a scan that ends without error has found. -/
theorem scanMPEGFrame_ok (r : File) (ex e : Bool) (start : Nat) (p : Int)
    (h : scanMPEGFrame r ex (start : Int) = (e, p, none)) :
    e = ex ∧ (start : Int) ≤ p ∧ syncPairAt r p.toNat ∧
      ∀ q : Nat, start ≤ q → (q : Int) < p → ¬ syncPairAt r q := by
  generalize hd : r.length - start = d
  induction d using Nat.strong_induction_on generalizing start with
  | _ d ih =>
    by_cases hlen : r.length < start + 2
    · rw [scanMPEGFrame_eof r ex start hlen] at h
      simp at h
    · by_cases hs : syncPairAt r start
      · rw [scanMPEGFrame_found_here r ex start hs] at h
        simp only [Prod.mk.injEq, and_true] at h
        obtain ⟨rfl, rfl⟩ := h
        refine ⟨rfl, le_refl _, by simpa using hs, ?_⟩
        intro q h1 h2
        omega
      · rw [scanMPEGFrame_step r ex start (by omega) hs] at h
        have := ih (r.length - (start + 1)) (by omega) (start + 1) (by exact_mod_cast h) rfl
        obtain ⟨h1, h2, h3, h4⟩ := this
        refine ⟨h1, by omega, h3, ?_⟩
        intro q hq1 hq2
        rcases Nat.eq_or_lt_of_le hq1 with rfl | hlt
        · exact hs
        · exact h4 q (by omega) hq2

/-- The scan returns the `isExist` flag it is given, whatever the outcome. -/
theorem scanMPEGFrame_fst (r : File) (ex : Bool) (start : Int) :
    (scanMPEGFrame r ex start).1 = ex := by
  by_cases hneg : start < 0
  · rw [scanMPEGFrame]
    have hp := isExistMP3Frame_neg r start hneg
    split
    · rfl
    · rename_i heq; exact absurd (hp.symm.trans heq) (by simp)
    · rename_i heq; exact absurd (hp.symm.trans heq) (by simp)
  · obtain ⟨n, rfl⟩ := Int.eq_ofNat_of_zero_le (not_lt.mp hneg)
    generalize hd : r.length - n = d
    induction d using Nat.strong_induction_on generalizing n with
    | _ d ih =>
      by_cases hlen : r.length < n + 2
      · rw [scanMPEGFrame_eof r ex n hlen]
      · by_cases hs : syncPairAt r n
        · rw [scanMPEGFrame_found_here r ex n hs]
        · rw [scanMPEGFrame_step r ex n (by omega) hs]
          exact ih (r.length - (n + 1)) (by omega) (n + 1) (by omega) rfl

theorem decodeSynchsafe_four_some (data : List Nat) (hl : data.length = 4) :
    ∃ S : Int, decodeSynchsafe data 4 = some S ∧ 0 ≤ S ∧ S < 2 ^ 28 := by
  rcases data with _ | ⟨a, _ | ⟨b, _ | ⟨c, _ | ⟨d, _ | ⟨e, t⟩⟩⟩⟩⟩ <;> simp at hl
  exact ⟨_, decodeSynchsafe_four a b c d,
    decodeSynchsafe_four_range _ _ (decodeSynchsafe_four a b c d) rfl⟩

/-- The four possible courses of `getID3v2TagSize`; it never panics. -/
theorem getID3v2TagSize_cases (r : File) :
    (r.length < 4 ∧ getID3v2TagSize r = some (false, 0, some GoError.eof)) ∨
    (4 ≤ r.length ∧ getID3v2TagSize r = some (false, 0, none)) ∨
    (∃ h, headerAt r h ∧ r.length < h + 10 ∧
      getID3v2TagSize r = some (true, 0, some GoError.eof)) ∨
    (∃ h S, headerAt r h ∧ h + 10 ≤ r.length ∧ 0 ≤ S ∧
      decodeSynchsafe ((r.drop (h + 6)).take 4) 4 = some S ∧
      getID3v2TagSize r = some (scanMPEGFrame r true (S + (10 + (h : Int))))) := by
  by_cases h4 : r.length < 4
  · exact Or.inl ⟨h4, getID3v2TagSize_short r h4⟩
  · have h4 : 4 ≤ r.length := by omega
    by_cases hhdr : ∃ h, headerAt r h
    · obtain ⟨h, hh⟩ := hhdr
      have hle : h ≤ 1 := by rcases hh with ⟨rfl, _⟩ | ⟨rfl, _⟩ <;> omega
      by_cases hlen : r.length < h + 10
      · exact Or.inr (Or.inr (Or.inl ⟨h, hh, hlen, getID3v2TagSize_header_short r h hh h4 hlen⟩))
      · have hl4 : ((r.drop (h + 6)).take 4).length = 4 := by
          rw [length_take_drop]; omega
        obtain ⟨S, hS, hS0, _⟩ := decodeSynchsafe_four_some _ hl4
        exact Or.inr (Or.inr (Or.inr ⟨h, S, hh, by omega, hS0, hS,
          getID3v2TagSize_header r h S hh hS⟩))
    · refine Or.inr (Or.inl ⟨h4, getID3v2TagSize_no_header r h4 ?_ ?_⟩)
      · intro h0
        exact hhdr ⟨0, Or.inl ⟨rfl, h0⟩⟩
      · intro h1
        by_cases h0 : r.take 3 = stringBytes "ID3"
        · exact hhdr ⟨0, Or.inl ⟨rfl, h0⟩⟩
        · exact hhdr ⟨1, Or.inr ⟨rfl, h0, h1⟩⟩


/-! ## The ID3v1 probe and `GetStat` -/

theorem isExistID3v1Tag_neg (r : File) (off : Int) (h : off < 0) :
    isExistID3v1Tag r off = (false, some GoError.negativeOffset) := by
  simp [isExistID3v1Tag, ReadAt_neg r 3 off h]

theorem isExistID3v1Tag_full (r : File) (off : Int) (h0 : 0 ≤ off)
    (h : off + 3 ≤ (r.length : Int)) :
    isExistID3v1Tag r off = (decide ((r.drop off.toNat).take 3 = stringBytes "TAG"), none) := by
  unfold isExistID3v1Tag
  rw [ReadAt_full r 3 off h0 (by exact_mod_cast h)]
  by_cases hm : (r.drop off.toNat).take 3 = stringBytes "TAG" <;> simp [hm]

/-- The empty `Stat` with which `GetStat` starts. -/
theorem GetStat_open_failed (fs : FileSystem) (name : String) (h : fs name = none) :
    GetStat fs name =
      some ({ Size := 0, V1TagExist := false, V2TagExist := false, OffsetMPEGFrame := 0 },
        some GoError.openFailed) := by
  simp [GetStat, h]

theorem GetStat_v2_error (fs : FileSystem) (name : String) (f : File) (ex : Bool) (off : Int)
    (e : GoError) (h : fs name = some f) (h2 : getID3v2TagSize f = some (ex, off, some e)) :
    GetStat fs name =
      some ({ Size := (f.length : Int), V1TagExist := false, V2TagExist := ex,
              OffsetMPEGFrame := off }, some e) := by
  simp [GetStat, h, h2]

theorem GetStat_small (fs : FileSystem) (name : String) (f : File) (ex : Bool) (off : Int)
    (h : fs name = some f) (h2 : getID3v2TagSize f = some (ex, off, none))
    (hlen : f.length < 128) :
    GetStat fs name =
      some ({ Size := (f.length : Int), V1TagExist := false, V2TagExist := ex,
              OffsetMPEGFrame := off }, some GoError.negativeOffset) := by
  have := isExistID3v1Tag_neg f ((f.length : Int) - 128) (by omega)
  simp [GetStat, h, h2, this]

theorem GetStat_ok (fs : FileSystem) (name : String) (f : File) (ex : Bool) (off : Int)
    (h : fs name = some f) (h2 : getID3v2TagSize f = some (ex, off, none))
    (hlen : 128 ≤ f.length) :
    GetStat fs name =
      some ({ Size := (f.length : Int),
              V1TagExist := decide ((f.drop (f.length - 128)).take 3 = stringBytes "TAG"),
              V2TagExist := ex, OffsetMPEGFrame := off }, none) := by
  have := isExistID3v1Tag_full f ((f.length : Int) - 128) (by omega) (by omega)
  rw [show ((f.length : Int) - 128).toNat = f.length - 128 by omega] at this
  simp [GetStat, h, h2, this]

/-- Every successful `GetStat` comes from a file of at least 128 bytes on which
the ID3v2 probe succeeded. -/
theorem GetStat_success (fs : FileSystem) (name : String) (st : Stat)
    (h : GetStat fs name = some (st, none)) :
    ∃ f, fs name = some f ∧ 128 ≤ f.length ∧
      getID3v2TagSize f = some (st.V2TagExist, st.OffsetMPEGFrame, none) ∧
      st.Size = (f.length : Int) ∧
      (st.V1TagExist = true ↔ (f.drop (f.length - 128)).take 3 = stringBytes "TAG") := by
  rcases hf : fs name with _ | f
  · rw [GetStat_open_failed fs name hf] at h
    simp at h
  · refine ⟨f, rfl, ?_⟩
    rcases getID3v2TagSize_cases f with ⟨_, h2⟩ | ⟨_, h2⟩ | ⟨_, _, _, h2⟩ | ⟨hh, S, _, _, _, _, h2⟩
    · rw [GetStat_v2_error fs name f _ _ _ hf h2] at h
      simp at h
    · by_cases hlen : f.length < 128
      · rw [GetStat_small fs name f _ _ hf h2 hlen] at h
        simp at h
      · rw [GetStat_ok fs name f _ _ hf h2 (by omega)] at h
        simp only [Option.some.injEq, Prod.mk.injEq, and_true] at h
        have hge : 128 ≤ f.length := by omega
        rw [← h]
        exact ⟨hge, h2, rfl, by simp⟩
    · rw [GetStat_v2_error fs name f _ _ _ hf h2] at h
      simp at h
    · rcases hsc : scanMPEGFrame f true (S + (10 + (hh : Int))) with ⟨ex, off, _ | e⟩
      · rw [hsc] at h2
        by_cases hlen : f.length < 128
        · rw [GetStat_small fs name f _ _ hf h2 hlen] at h
          simp at h
        · rw [GetStat_ok fs name f _ _ hf h2 (by omega)] at h
          simp only [Option.some.injEq, Prod.mk.injEq, and_true] at h
          have hge : 128 ≤ f.length := by omega
          rw [← h]
          exact ⟨hge, h2, rfl, by simp⟩
      · rw [hsc] at h2
        rw [GetStat_v2_error fs name f _ _ _ hf h2] at h
        simp at h


/-! ## Evaluation on concrete files -/

/-- With `k` bytes free of sync pairs between the declared end of the tag and
the first sync pair, the probe returns `h + 10 + S + k`. -/
theorem getID3v2TagSize_padding (r : File) (h S k : Nat) (hh : headerAt r h)
    (hS : decodeSynchsafe ((r.drop (h + 6)).take 4) 4 = some (S : Int))
    (hsync : syncPairAt r (h + 10 + S + k))
    (hmin : ∀ q, h + 10 + S ≤ q → q < h + 10 + S + k → ¬ syncPairAt r q) :
    getID3v2TagSize r = some (true, ((h + 10 + S + k : Nat) : Int), none) := by
  rw [getID3v2TagSize_header r h S hh hS]
  rw [show ((S : Int) + (10 + (h : Int))) = ((h + 10 + S : Nat) : Int) by push_cast; ring]
  rw [scanMPEGFrame_first r true k (h + 10 + S) hsync hmin]

theorem paddedFile_probe : getID3v2TagSize paddedFile = some (true, 15, none) := by
  have := getID3v2TagSize_padding paddedFile 0 2 3 (by decide) (by decide) (by decide)
    (by intro q h1 h2; interval_cases q <;> decide)
  simpa using this

theorem strayByteFile_probe : getID3v2TagSize strayByteFile = some (true, 16, none) := by
  have := getID3v2TagSize_padding strayByteFile 1 2 3 (by decide) (by decide) (by decide)
    (by intro q h1 h2; interval_cases q <;> decide)
  simpa using this

theorem taggedFile_probe : getID3v2TagSize taggedFile = some (true, 10, none) := by
  have := getID3v2TagSize_padding taggedFile 0 0 0 (by decide) (by decide) (by decide)
    (by intro q h1 h2; omega)
  simpa using this

theorem tagOnlyFile_probe : getID3v2TagSize tagOnlyFile = some (true, 13, none) := by
  have := getID3v2TagSize_padding tagOnlyFile 0 0 3 (by decide) (by decide) (by decide)
    (by intro q h1 h2; interval_cases q <;> decide)
  simpa using this

theorem plainFile_probe : getID3v2TagSize plainFile = some (false, 0, none) :=
  getID3v2TagSize_no_header plainFile (by decide) (by decide) (by decide)

/-! ## Claims -/

/-- C10: `isExistMP3Frame` returns true exactly when the offset is not
negative and the two bytes there are `0xFF 0xFB` or `0xFF 0xFA`; in particular
it returns false when a single `0xFF` is all that is left of the source. -/
theorem isExistMP3Frame_true_iff (r : File) (offset : Int) :
    ((isExistMP3Frame r offset).1 = true ↔ 0 ≤ offset ∧ syncPairAt r offset.toNat) ∧
    (0 ≤ offset ∧ r.drop offset.toNat = [0xff] → (isExistMP3Frame r offset).1 = false) := by
  constructor
  · by_cases hneg : offset < 0
    · rw [isExistMP3Frame_neg r offset hneg]
      simp
      omega
    · have h0 : 0 ≤ offset := not_lt.mp hneg
      by_cases hlen : (r.length : Int) < offset + 2
      · rw [isExistMP3Frame_short r offset h0 hlen]
        constructor
        · intro h; simp at h
        · rintro ⟨_, hs⟩
          have := syncPairAt_length r offset.toNat hs
          omega
      · obtain ⟨h1, h2⟩ := isExistMP3Frame_full r offset h0 (by omega)
        by_cases hs : syncPairAt r offset.toNat
        · rw [h1 hs]; simp [hs, h0]
        · rw [h2 hs]; simp [hs]
  · rintro ⟨h0, hd⟩
    have hl : (r.drop offset.toNat).length = 1 := by rw [hd]; rfl
    rw [List.length_drop] at hl
    rw [isExistMP3Frame_short r offset h0 (by omega)]

/-- C3: when an ID3v2 header is detected at offset `h`, its size field decodes
to `S` and some offset at or after `h + 10 + S` holds a frame sync pair, then
`getID3v2TagSize` succeeds with `isExist = true` and returns the smallest such
offset, and a successful `GetStat` reports it as `OffsetMPEGFrame`. -/
theorem getID3v2TagSize_first_sync (r : File) (h : Nat) (S : Int) (p0 : Nat)
    (hh : headerAt r h)
    (hS : decodeSynchsafe ((r.drop (h + 6)).take 4) 4 = some S)
    (hp0 : (h : Int) + 10 + S ≤ p0) (hsync : syncPairAt r p0) :
    ∃ p : Nat, getID3v2TagSize r = some (true, (p : Int), none) ∧
      (h : Int) + 10 + S ≤ p ∧ syncPairAt r p ∧
      (∀ q : Nat, (h : Int) + 10 + S ≤ q → syncPairAt r q → p ≤ q) ∧
      ∀ (fs : FileSystem) (name : String) (st : Stat), fs name = some r →
        GetStat fs name = some (st, none) → st.OffsetMPEGFrame = (p : Int) := by
  have hl := decodeSynchsafe_four_length _ _ hS
  have hl4 : ((r.drop (h + 6)).take 4).length = 4 :=
    le_antisymm (List.length_take_le _ _) hl
  obtain ⟨hS0, _⟩ := decodeSynchsafe_four_range _ _ hS hl4
  obtain ⟨s, rfl⟩ := Int.eq_ofNat_of_zero_le hS0
  have hex : ∃ q, h + 10 + s ≤ q ∧ syncPairAt r q := ⟨p0, by omega, hsync⟩
  have hfind := Nat.find_spec hex
  have hminp := fun q hq => Nat.find_min hex (m := q) hq
  have hres : getID3v2TagSize r = some (true, ((Nat.find hex : Nat) : Int), none) := by
    rw [getID3v2TagSize_header r h s hh hS]
    have := scanMPEGFrame_first r true (Nat.find hex - (h + 10 + s)) (h + 10 + s)
      (by rw [Nat.add_sub_cancel' hfind.1]; exact hfind.2)
      (fun q hq1 hq2 hq3 => hminp q (by omega) ⟨hq1, hq3⟩)
    rw [Nat.add_sub_cancel' hfind.1] at this
    rw [← this]
    congr 2
    push_cast
    ring
  refine ⟨Nat.find hex, hres, by have := hfind.1; omega, hfind.2, ?_, ?_⟩
  · intro q hq hsq
    exact Nat.find_min' hex ⟨by omega, hsq⟩
  · intro fs name st hfs hst
    obtain ⟨f, hf, _, h2, _⟩ := GetStat_success fs name st hst
    rw [hfs] at hf
    cases hf
    rw [hres] at h2
    simp only [Option.some.injEq, Prod.mk.injEq, and_true] at h2
    exact h2.2.symm

/-- C7: with the marker "ID3" at bytes 1..3 and not at bytes 0..2,
`getID3v2TagSize` reports `isExist = true`; when the size field at bytes 7..10
decodes to `S` the result is that of the scan started at `S + 11`, which is the
first offset at or after `S + 11` holding a frame sync pair when there is one. -/
theorem getID3v2TagSize_stray_byte (r : File)
    (h0 : r.take 3 ≠ stringBytes "ID3") (h1 : (r.drop 1).take 3 = stringBytes "ID3") :
    (∃ size err, getID3v2TagSize r = some (true, size, err)) ∧
    ∀ S : Int, decodeSynchsafe ((r.drop 7).take 4) 4 = some S →
      getID3v2TagSize r = some (scanMPEGFrame r true (S + 11)) ∧
      ∀ p : Nat, S + 11 ≤ p → syncPairAt r p →
        (∀ q : Nat, S + 11 ≤ q → q < p → ¬ syncPairAt r q) →
        getID3v2TagSize r = some (true, (p : Int), none) := by
  have hh : headerAt r 1 := Or.inr ⟨rfl, h0, h1⟩
  have hstart : ∀ S : Int, decodeSynchsafe ((r.drop 7).take 4) 4 = some S →
      getID3v2TagSize r = some (scanMPEGFrame r true (S + 11)) := by
    intro S hS
    have := getID3v2TagSize_header r 1 S hh hS
    rw [this]
    norm_num
  constructor
  · rcases getID3v2TagSize_cases r with ⟨hlt, _⟩ | ⟨_, h2⟩ | ⟨h, _, _, h2⟩ | ⟨h, S, _, _, _, _, h2⟩
    · have : ((r.drop 1).take 3).length = 3 := by rw [h1]; rfl
      rw [length_take_drop] at this
      omega
    · have hl : ((r.drop 1).take 3).length = 3 := by rw [h1]; rfl
      rw [length_take_drop] at hl
      by_cases hlen : r.length < 1 + 10
      · exact ⟨_, _, getID3v2TagSize_header_short r 1 hh (by omega) hlen⟩
      · have hl4 : ((r.drop (1 + 6)).take 4).length = 4 := by
          rw [length_take_drop]; omega
        obtain ⟨S, hS, _⟩ := decodeSynchsafe_four_some _ hl4
        have h3 := hstart S hS
        rw [h2] at h3
        have h4 := scanMPEGFrame_fst r true (S + 11)
        simp only [Option.some.injEq] at h3
        rw [← h3] at h4
        simp at h4
    · exact ⟨_, _, h2⟩
    · have h4 := scanMPEGFrame_fst r true (S + (10 + (h : Int)))
      rcases hsc : scanMPEGFrame r true (S + (10 + (h : Int))) with ⟨ex, size, err⟩
      rw [hsc] at h4 h2
      simp only at h4
      subst h4
      exact ⟨_, _, h2⟩
  · intro S hS
    refine ⟨hstart S hS, ?_⟩
    intro p hp hsync hmin
    have hl4 : ((r.drop 7).take 4).length = 4 :=
      le_antisymm (List.length_take_le _ _) (decodeSynchsafe_four_length _ _ hS)
    obtain ⟨hS0, _⟩ := decodeSynchsafe_four_range _ _ hS hl4
    obtain ⟨s, rfl⟩ := Int.eq_ofNat_of_zero_le hS0
    rw [hstart s hS]
    have := scanMPEGFrame_first r true (p - (s + 11)) (s + 11)
      (by rw [Nat.add_sub_cancel' (by omega)]; exact hsync)
      (fun q hq1 hq2 => hmin q (by omega) (by omega))
    rw [Nat.add_sub_cancel' (by omega)] at this
    rw [← this]
    congr 2

/-- C8: when an ID3v2 header is detected at offset `h`, its size field decodes
to `S`, and no offset `p ≥ h + 10 + S` with `p + 2` within the file holds a
frame sync pair, `getID3v2TagSize` returns the error "mpeg frame not found"
and `GetStat` fails with that error. -/
theorem getID3v2TagSize_frame_not_found (r : File) (h : Nat) (S : Int)
    (hh : headerAt r h)
    (hS : decodeSynchsafe ((r.drop (h + 6)).take 4) 4 = some S)
    (hno : ∀ p : Nat, (h : Int) + 10 + S ≤ p → p + 2 ≤ r.length → ¬ syncPairAt r p) :
    getID3v2TagSize r =
      some (true, max ((h : Int) + 10 + S) ((r.length : Int) - 1),
        some (GoError.errorf "mpeg frame not found")) ∧
    ∀ (fs : FileSystem) (name : String), fs name = some r →
      GetStat fs name =
        some ({ Size := (r.length : Int), V1TagExist := false, V2TagExist := true,
                OffsetMPEGFrame := max ((h : Int) + 10 + S) ((r.length : Int) - 1) },
          some (GoError.errorf "mpeg frame not found")) := by
  have hl := decodeSynchsafe_four_length _ _ hS
  have hl4 : ((r.drop (h + 6)).take 4).length = 4 :=
    le_antisymm (List.length_take_le _ _) hl
  rw [length_take_drop] at hl
  obtain ⟨hS0, _⟩ := decodeSynchsafe_four_range _ _ hS hl4
  obtain ⟨s, rfl⟩ := Int.eq_ofNat_of_zero_le hS0
  have hres : getID3v2TagSize r =
      some (true, max ((h : Int) + 10 + s) ((r.length : Int) - 1),
        some (GoError.errorf "mpeg frame not found")) := by
    rw [getID3v2TagSize_header r h s hh hS]
    have := scanMPEGFrame_none r true (h + 10 + s)
      (fun q hq hsq => hno q (by omega) (syncPairAt_length r q hsq) hsq)
    rw [show ((s : Int) + (10 + (h : Int))) = ((h + 10 + s : Nat) : Int) by push_cast; ring, this]
    congr 3
    omega
  exact ⟨hres, fun fs name hfs => GetStat_v2_error fs name r _ _ _ hfs hres⟩


/-- Witness of C3 on `paddedFile`: header at 0, declared size 2, three bytes
of padding, first sync pair at offset 15. -/
theorem getID3v2TagSize_first_sync_witness :
    getID3v2TagSize paddedFile = some (true, 15, none) := by
  obtain ⟨p, h1, h2, h3, h4, _⟩ :=
    getID3v2TagSize_first_sync paddedFile 0 2 15 (by decide) (by decide) (by decide) (by decide)
  have hp : p ≤ 15 := h4 15 (by decide) (by decide)
  have hp2 : 12 ≤ p := by omega
  interval_cases p
  · exact absurd h3 (by decide)
  · exact absurd h3 (by decide)
  · exact absurd h3 (by decide)
  · exact h1

/-- Witness of C7 on `strayByteFile`: the header is taken at offset 1 and the
first sync pair at or after 2 + 11 is at offset 16. -/
theorem getID3v2TagSize_stray_byte_witness :
    getID3v2TagSize strayByteFile = some (true, 16, none) :=
  ((getID3v2TagSize_stray_byte strayByteFile (by decide) (by decide)).2 2 (by decide)).2 16
    (by decide) (by decide) (by intro q h1 h2; interval_cases q <;> decide)

/-- Witness of C8 on `noFrameFile`: the scan starts at offset 12 and fails at
offset 15, where only one byte is left. -/
theorem getID3v2TagSize_frame_not_found_witness :
    getID3v2TagSize noFrameFile =
      some (true, 15, some (GoError.errorf "mpeg frame not found")) :=
  (getID3v2TagSize_frame_not_found noFrameFile 0 2 (by decide) (by decide)
    (by
      intro p h1 h2
      have h3 : p + 2 ≤ 16 := h2
      have h4 : 12 ≤ p := by omega
      have h5 : p ≤ 14 := by omega
      interval_cases p <;> decide)).1


/-- C4, counterexample: on `tagOnlyFile` (138 bytes) `GetStat` succeeds, both
tags are found, the frame offset is 13 and the frame size is -3. -/
theorem GetStat_negative_frame_size :
    GetStat (singleFile tagOnlyFile) "song.mp3" =
      some ({ Size := 138, V1TagExist := true, V2TagExist := true, OffsetMPEGFrame := 13 },
        none) ∧
    Stat.SizeOfMPEGFrame
      { Size := 138, V1TagExist := true, V2TagExist := true, OffsetMPEGFrame := 13 } = -3 := by
  constructor
  · rw [GetStat_ok (singleFile tagOnlyFile) "song.mp3" tagOnlyFile true 13 rfl
      tagOnlyFile_probe (by decide)]
    rfl
  · decide

/-- C4, amended: whenever `GetStat` succeeds the frame size is at least 0
unless both tags were found, and it is never below -126 (a found sync pair
lies within the file). -/
theorem GetStat_frame_size_bound (fs : FileSystem) (name : String) (st : Stat)
    (h : GetStat fs name = some (st, none)) :
    (¬ (st.V1TagExist = true ∧ st.V2TagExist = true) → 0 ≤ st.SizeOfMPEGFrame) ∧
    -126 ≤ st.SizeOfMPEGFrame := by
  obtain ⟨f, _, hlen, h2, hsz, _⟩ := GetStat_success fs name st h
  have hoff : (st.V2TagExist = false ∧ st.OffsetMPEGFrame = 0) ∨
      (st.V2TagExist = true ∧ 0 ≤ st.OffsetMPEGFrame ∧
        st.OffsetMPEGFrame + 2 ≤ (f.length : Int)) := by
    rcases getID3v2TagSize_cases f with ⟨_, h3⟩ | ⟨_, h3⟩ | ⟨_, _, _, h3⟩ | ⟨hh, S, _, _, hS0, _, h3⟩
    · rw [h3] at h2; simp at h2
    · rw [h3] at h2
      simp only [Option.some.injEq, Prod.mk.injEq, and_true] at h2
      exact Or.inl ⟨h2.1.symm, h2.2.symm⟩
    · rw [h3] at h2; simp at h2
    · rw [h3] at h2
      simp only [Option.some.injEq] at h2
      obtain ⟨s, rfl⟩ := Int.eq_ofNat_of_zero_le hS0
      rw [show ((s : Int) + (10 + (hh : Int))) = ((hh + 10 + s : Nat) : Int) by push_cast; ring]
        at h2
      obtain ⟨he, hle, hsync, _⟩ := scanMPEGFrame_ok f true _ _ _ h2
      have := syncPairAt_length f _ hsync
      exact Or.inr ⟨he, by omega, by omega⟩
  unfold Stat.SizeOfMPEGFrame
  rcases hoff with ⟨hv2, ho⟩ | ⟨hv2, ho0, ho⟩
  · constructor
    · intro _; split <;> omega
    · split <;> omega
  · constructor
    · intro hnot
      have hv1 : st.V1TagExist = false := by
        cases hv : st.V1TagExist
        · rfl
        · exact absurd ⟨hv, hv2⟩ hnot
      simp only [hv1]
      simp
      omega
    · split <;> omega

/-- Witness of C4 (amended) on `plainFile`: `GetStat` succeeds without any tag
and the frame size is the file size, 204. -/
theorem GetStat_frame_size_bound_witness :
    (¬ ((false : Bool) = true ∧ (false : Bool) = true) →
      0 ≤ Stat.SizeOfMPEGFrame
        { Size := 204, V1TagExist := false, V2TagExist := false, OffsetMPEGFrame := 0 }) ∧
    -126 ≤ Stat.SizeOfMPEGFrame
        { Size := 204, V1TagExist := false, V2TagExist := false, OffsetMPEGFrame := 0 } :=
  GetStat_frame_size_bound (singleFile plainFile) "song.mp3"
    { Size := 204, V1TagExist := false, V2TagExist := false, OffsetMPEGFrame := 0 }
    (by
      rw [GetStat_ok (singleFile plainFile) "song.mp3" plainFile false 0 rfl
        plainFile_probe (by decide)]
      rfl)

/-- C5: on a file of at least 128 bytes on which the ID3v2 probe succeeds,
`GetStat` succeeds, `V1TagExist` is true exactly when the three bytes at
`Size - 128` are "TAG", and `SizeOfMPEGFrame` leaves out the last 128 bytes
exactly in that case. -/
theorem GetStat_v1_tag (fs : FileSystem) (name : String) (f : File) (ex : Bool) (off : Int)
    (hf : fs name = some f) (hlen : 128 ≤ f.length)
    (h2 : getID3v2TagSize f = some (ex, off, none)) :
    ∃ st, GetStat fs name = some (st, none) ∧ st.Size = (f.length : Int) ∧
      st.V2TagExist = ex ∧ st.OffsetMPEGFrame = off ∧
      (st.V1TagExist = true ↔ (f.drop (f.length - 128)).take 3 = stringBytes "TAG") ∧
      (st.V1TagExist = true → st.SizeOfMPEGFrame = (f.length : Int) - off - 128) ∧
      (st.V1TagExist = false → st.SizeOfMPEGFrame = (f.length : Int) - off) := by
  refine ⟨_, GetStat_ok fs name f ex off hf h2 hlen, rfl, rfl, rfl, by simp, ?_, ?_⟩
  · intro h
    exact if_pos h
  · intro h
    exact if_neg (by rw [h]; simp)

/-- Witness of C5 on `taggedFile`: 242 bytes, frames from offset 10, "TAG" at
offset 114. -/
theorem GetStat_v1_tag_witness :
    ∃ st, GetStat (singleFile taggedFile) "song.mp3" = some (st, none) ∧
      st.Size = ((taggedFile.length : Nat) : Int) ∧
      st.V2TagExist = true ∧ st.OffsetMPEGFrame = 10 ∧
      (st.V1TagExist = true ↔
        (taggedFile.drop (taggedFile.length - 128)).take 3 = stringBytes "TAG") ∧
      (st.V1TagExist = true →
        st.SizeOfMPEGFrame = ((taggedFile.length : Nat) : Int) - 10 - 128) ∧
      (st.V1TagExist = false → st.SizeOfMPEGFrame = ((taggedFile.length : Nat) : Int) - 10) :=
  GetStat_v1_tag (singleFile taggedFile) "song.mp3" taggedFile true 10 rfl (by decide)
    taggedFile_probe

/-- C6: on a file of at least 128 bytes with no "ID3" marker at offset 0 or 1
and no "TAG" marker at `Size - 128`, `GetStat` succeeds with both flags false,
frame offset 0 and frame size equal to the file length. -/
theorem GetStat_no_tags (fs : FileSystem) (name : String) (f : File)
    (hf : fs name = some f) (hlen : 128 ≤ f.length)
    (h0 : f.take 3 ≠ stringBytes "ID3") (h1 : (f.drop 1).take 3 ≠ stringBytes "ID3")
    (hv1 : (f.drop (f.length - 128)).take 3 ≠ stringBytes "TAG") :
    GetStat fs name =
      some ({ Size := (f.length : Int), V1TagExist := false, V2TagExist := false,
              OffsetMPEGFrame := 0 }, none) ∧
    Stat.SizeOfMPEGFrame
      { Size := (f.length : Int), V1TagExist := false, V2TagExist := false,
        OffsetMPEGFrame := 0 } = (f.length : Int) := by
  constructor
  · rw [GetStat_ok fs name f false 0 hf (getID3v2TagSize_no_header f (by omega) h0 h1) hlen]
    simp [hv1]
  · simp [Stat.SizeOfMPEGFrame]

/-- Witness of C6 on `plainFile`, which starts with a frame sync pair. -/
theorem GetStat_no_tags_witness :
    GetStat (singleFile plainFile) "song.mp3" =
      some ({ Size := ((plainFile.length : Nat) : Int), V1TagExist := false,
              V2TagExist := false, OffsetMPEGFrame := 0 }, none) ∧
    Stat.SizeOfMPEGFrame
      { Size := ((plainFile.length : Nat) : Int), V1TagExist := false,
        V2TagExist := false, OffsetMPEGFrame := 0 } = ((plainFile.length : Nat) : Int) :=
  GetStat_no_tags (singleFile plainFile) "song.mp3" plainFile rfl (by decide) (by decide)
    (by decide) (by decide)

/-- C9: on a file shorter than 128 bytes `GetStat` returns a non-nil error. -/
theorem GetStat_short_file (fs : FileSystem) (name : String) (f : File)
    (hf : fs name = some f) (hlen : f.length < 128) :
    ∃ st e, GetStat fs name = some (st, some e) := by
  rcases getID3v2TagSize_cases f with ⟨_, h2⟩ | ⟨_, h2⟩ | ⟨_, _, _, h2⟩ | ⟨h, S, _, _, _, _, h2⟩
  · exact ⟨_, _, GetStat_v2_error fs name f _ _ _ hf h2⟩
  · exact ⟨_, _, GetStat_small fs name f _ _ hf h2 hlen⟩
  · exact ⟨_, _, GetStat_v2_error fs name f _ _ _ hf h2⟩
  · rcases hsc : scanMPEGFrame f true (S + (10 + (h : Int))) with ⟨ex, off, _ | e⟩
    · rw [hsc] at h2
      exact ⟨_, _, GetStat_small fs name f _ _ hf h2 hlen⟩
    · rw [hsc] at h2
      exact ⟨_, _, GetStat_v2_error fs name f _ _ _ hf h2⟩

/-- Witness of C9 on the three-byte `shortFile`. -/
theorem GetStat_short_file_witness :
    ∃ st e, GetStat (singleFile shortFile) "song.mp3" = some (st, some e) :=
  GetStat_short_file (singleFile shortFile) "song.mp3" shortFile rfl (by decide)

/-- C1, evaluation at a failing input: for `longTitle` and `longArtist`
`CreateMinimumTag` succeeds with a tag of 172 bytes, so 162 bytes follow the
header, while the size field is `00 00 00 22` and decodes to 34. -/
theorem CreateMinimumTag_size_field_long :
    (CreateMinimumTag longTitle longArtist).2 = none ∧
    (CreateMinimumTag longTitle longArtist).1 =
      CreateID3V2Tag [(CreateTitleFrame longTitle).1, (CreateArtistFrame longArtist).1] ∧
    ((CreateMinimumTag longTitle longArtist).1.length : Int) - 10 = 162 ∧
    decodeSynchsafe (((CreateMinimumTag longTitle longArtist).1.drop 6).take 4) 4 = some 34 := by
  decide

/-- C2, evaluation at a failing input: `encodeSynchsafe(128, 4)` is
`00 00 00 00`, which decodes to 0, and `encodeSynchsafe(300, 4)` is
`00 00 00 2C`, which decodes to 44. -/
theorem synchsafe_round_trip_128 :
    encodeSynchsafe 128 4 = [0, 0, 0, 0] ∧
    decodeSynchsafe (encodeSynchsafe 128 4) 4 = some 0 ∧
    encodeSynchsafe 300 4 = [0, 0, 0, 44] ∧
    decodeSynchsafe (encodeSynchsafe 300 4) 4 = some 44 := by
  decide

/-- C11, counterexample: with one byte left at the offset the probe returns
false together with the error `io.EOF`, not a nil error. -/
theorem isExistMP3Frame_one_byte_left :
    isExistMP3Frame [0x49, 0xff] 1 = (false, some GoError.eof) := by
  decide

/-- C11, amended: when fewer than 2 bytes can be read at a non-negative offset
because the file ends, `isExistMP3Frame` returns false together with a non-nil
error; that error is the `io.EOF` of the short read whenever `offset + 2` is
within the range of `int64`. -/
theorem isExistMP3Frame_eof_error (r : File) (offset : Int) (h0 : 0 ≤ offset)
    (h : (r.length : Int) < offset + 2) :
    (isExistMP3Frame r offset).1 = false ∧ (isExistMP3Frame r offset).2 ≠ none ∧
    (offset + 2 ≤ 9223372036854775807 →
      isExistMP3Frame r offset = (false, some GoError.eof)) := by
  have hp := isExistMP3Frame_short r offset h0 h
  refine ⟨by rw [hp], by rw [hp]; simp, fun _ => hp⟩

/-- Witness of C11 (amended) on `shortFile` at offset 2, its last byte. -/
theorem isExistMP3Frame_eof_error_witness :
    (isExistMP3Frame shortFile 2).1 = false ∧ (isExistMP3Frame shortFile 2).2 ≠ none ∧
    isExistMP3Frame shortFile 2 = (false, some GoError.eof) :=
  have h := isExistMP3Frame_eof_error shortFile 2 (by decide) (by decide)
  ⟨h.1, h.2.1, h.2.2 (by decide)⟩

theorem encodeSynchsafe_length (v : Int) (N : Nat) : (encodeSynchsafe v N).length = N := by
  simp [encodeSynchsafe]

theorem CreateTextFrame_snd (id : List Nat) (text : String) :
    (CreateTextFrame id text).2 = none := by
  simp [CreateTextFrame, encodeTextFrameData, toUTF16BEWithBOM]

/-- C12: `CreateMinimumTag` succeeds, and its result is the bytes
`49 44 33 03 00 00`, four size bytes, the frame `CreateTextFrame("TIT2", title)`
and the frame `CreateTextFrame("TPE1", artist)`, in that order, and its length
is 10 plus the lengths of the two frames. -/
theorem CreateMinimumTag_layout (title artist : String) :
    (CreateMinimumTag title artist).2 = none ∧
    ∃ sz : List Nat, sz.length = 4 ∧
      (CreateMinimumTag title artist).1 =
        [0x49, 0x44, 0x33, 0x03, 0x00, 0x00] ++ sz ++
          (CreateTextFrame (stringBytes "TIT2") title).1 ++
          (CreateTextFrame (stringBytes "TPE1") artist).1 ∧
      (CreateMinimumTag title artist).1.length =
        10 + (CreateTextFrame (stringBytes "TIT2") title).1.length +
          (CreateTextFrame (stringBytes "TPE1") artist).1.length := by
  have ht := CreateTextFrame_snd (stringBytes "TIT2") title
  have ha := CreateTextFrame_snd (stringBytes "TPE1") artist
  rcases hT : CreateTextFrame (stringBytes "TIT2") title with ⟨tf, et⟩
  rcases hA : CreateTextFrame (stringBytes "TPE1") artist with ⟨af, ea⟩
  rw [hT] at ht
  rw [hA] at ha
  simp only at ht ha
  subst ht ha
  have hid : stringBytes "ID3" = [0x49, 0x44, 0x33] := by decide
  refine ⟨?_, encodeSynchsafe ((tf.length : Int) + (af.length : Int)) 4,
    encodeSynchsafe_length _ _, ?_, ?_⟩
  · simp [CreateMinimumTag, CreateTitleFrame, CreateArtistFrame, hT, hA]
  · simp [CreateMinimumTag, CreateTitleFrame, CreateArtistFrame, hT, hA, CreateID3V2Tag, hid]
  · simp [CreateMinimumTag, CreateTitleFrame, CreateArtistFrame, hT, hA, CreateID3V2Tag, hid,
      encodeSynchsafe_length]
    omega

/-- C15, evaluation at a failing input: byte 2 of `encodeSynchsafe(128, 4)` is
0, while `(128 >> 7) & 0x7F` is 1; the result has 4 bytes. -/
theorem encodeSynchsafe_byte_128 :
    (encodeSynchsafe 128 4).get? 2 = some 0 ∧
    ((128 : Nat) >>> (7 * (4 - 1 - 2))) &&& 0x7f = 1 ∧
    (encodeSynchsafe 128 4).length = 4 := by
  decide

theorem utf16BEUnits_bmp (c : Char) (h : c.toNat < 0x10000) :
    utf16BEUnits c = [c.toNat / 256, c.toNat % 256] := by
  have h1 : c.toNat >>> 8 = c.toNat / 256 := by rw [Nat.shiftRight_eq_div_pow]
  have h2 : c.toNat &&& 0xff = c.toNat % 256 := Nat.and_pow_two_sub_one_eq_mod _ 8
  simp only [utf16BEUnits, h, if_true, h1, h2]

theorem utf16BEUnits_supplementary (c : Char) (h : 0x10000 ≤ c.toNat) :
    ∃ hi lo : Nat, utf16BEUnits c = [hi / 256, hi % 256, lo / 256, lo % 256] ∧
      0xD800 ≤ hi ∧ hi ≤ 0xDBFF ∧ 0xDC00 ≤ lo ∧ lo ≤ 0xDFFF ∧
      0x10000 + (hi - 0xD800) * 0x400 + (lo - 0xDC00) = c.toNat := by
  have hv : c.toNat < 0x110000 := by
    have := c.valid
    simp only [Char.toNat]
    rcases this with h1 | ⟨_, h2⟩
    · have : c.val.toNat < 0xd800 := h1
      omega
    · exact h2
  have hs : ∀ x : Nat, x >>> 8 = x / 256 := fun x => by rw [Nat.shiftRight_eq_div_pow]
  have hs10 : ∀ x : Nat, x >>> 10 = x / 1024 := fun x => by rw [Nat.shiftRight_eq_div_pow]
  have hm : ∀ x : Nat, x &&& 0xff = x % 256 := fun x => Nat.and_pow_two_sub_one_eq_mod x 8
  have hm10 : ∀ x : Nat, x &&& 0x3ff = x % 1024 := fun x => Nat.and_pow_two_sub_one_eq_mod x 10
  refine ⟨0xD800 + (c.toNat - 0x10000) / 1024, 0xDC00 + (c.toNat - 0x10000) % 1024, ?_, ?_⟩
  · simp only [utf16BEUnits, not_lt.mpr h, if_false, hs, hs10, hm, hm10]
  · omega


/-- C14: `encodeTextFrameData` succeeds on every string and gives `01`, the
byte-order mark `FE FF`, the UTF-16BE code units of the characters in order
and `00 00`.  A character below U+10000 gives the two bytes of its code point,
one above gives a surrogate pair that decodes to it.  The mark is there for
the empty string too; "Test Song" gives a payload starting
`01 FE FF 00 54 00 65 00 73 00 74`, in a tag starting `49 44 33 03 00 00`. -/
theorem encodeTextFrameData_utf16 (s : String) :
    encodeTextFrameData s =
      ([0x01, 0xfe, 0xff] ++ s.data.flatMap utf16BEUnits ++ [0x00, 0x00], none) ∧
    (∀ c : Char, c.toNat < 0x10000 → utf16BEUnits c = [c.toNat / 256, c.toNat % 256]) ∧
    (∀ c : Char, 0x10000 ≤ c.toNat →
      ∃ hi lo : Nat, utf16BEUnits c = [hi / 256, hi % 256, lo / 256, lo % 256] ∧
        0xD800 ≤ hi ∧ hi ≤ 0xDBFF ∧ 0xDC00 ≤ lo ∧ lo ≤ 0xDFFF ∧
        0x10000 + (hi - 0xD800) * 0x400 + (lo - 0xDC00) = c.toNat) ∧
    encodeTextFrameData "" = ([0x01, 0xfe, 0xff, 0x00, 0x00], none) ∧
    (encodeTextFrameData "Test Song").1.take 11 =
      [0x01, 0xfe, 0xff, 0x00, 0x54, 0x00, 0x65, 0x00, 0x73, 0x00, 0x74] ∧
    (CreateMinimumTag "Test Song" "Test Artist").1.take 6 =
      [0x49, 0x44, 0x33, 0x03, 0x00, 0x00] := by
  refine ⟨?_, utf16BEUnits_bmp, utf16BEUnits_supplementary, by decide, by decide, by decide⟩
  simp [encodeTextFrameData, toUTF16BEWithBOM]

/-! ## Text frames -/

theorem land_255 (x : Nat) : 0xff &&& x = x % 256 := by
  rw [Nat.land_comm]
  exact Nat.and_pow_two_sub_one_eq_mod x 8

/-- The frame `CreateTextFrame` builds, with `n` the length of its payload. -/
theorem CreateTextFrame_eq (id : List Nat) (text : String) :
    CreateTextFrame id text =
      (id ++ [(5 + (text.data.flatMap utf16BEUnits).length) / 16777216 % 256,
              (5 + (text.data.flatMap utf16BEUnits).length) / 65536 % 256,
              (5 + (text.data.flatMap utf16BEUnits).length) / 256 % 256,
              (5 + (text.data.flatMap utf16BEUnits).length) % 256] ++ [0x00, 0x00] ++
        ([0x01] ++ ([0xfe, 0xff] ++ text.data.flatMap utf16BEUnits) ++ [0x00, 0x00]), none) := by
  have hlen : ([0x1] ++ ([0xfe, 0xff] ++ text.data.flatMap utf16BEUnits) ++ [0x0, 0x0]).length =
      5 + (text.data.flatMap utf16BEUnits).length := by
    simp only [List.length_append, List.length_cons, List.length_nil]
    omega
  simp only [CreateTextFrame, encodeTextFrameData, toUTF16BEWithBOM, hlen, land_255,
    Nat.shiftRight_eq_div_pow]

theorem bigEndian_four (n : Nat) :
    bigEndian [n / 16777216 % 256, n / 65536 % 256, n / 256 % 256, n % 256] = n % 4294967296 := by
  simp only [bigEndian, List.foldl_cons, List.foldl_nil]
  omega


theorem CreateTextFrame_length (id : List Nat) (text : String) :
    (CreateTextFrame id text).1.length =
      id.length + 11 + (text.data.flatMap utf16BEUnits).length := by
  rw [CreateTextFrame_eq]
  simp only [List.length_append, List.length_cons, List.length_nil]
  omega

theorem CreateTextFrame_size_field (id : List Nat) (text : String) (hid : id.length = 4) :
    ((CreateTextFrame id text).1.drop 4).take 4 =
      [(5 + (text.data.flatMap utf16BEUnits).length) / 16777216 % 256,
       (5 + (text.data.flatMap utf16BEUnits).length) / 65536 % 256,
       (5 + (text.data.flatMap utf16BEUnits).length) / 256 % 256,
       (5 + (text.data.flatMap utf16BEUnits).length) % 256] := by
  rw [CreateTextFrame_eq]
  simp only [List.append_assoc]
  rw [List.drop_left' hid]
  rfl

theorem replicate_a_units (n : Nat) :
    ((List.replicate n 'a').flatMap utf16BEUnits).length = 2 * n := by
  induction n with
  | zero => rfl
  | succ n ih =>
    have ha : utf16BEUnits 'a' = [0, 97] := by decide
    rw [List.replicate_succ, List.flatMap_cons, List.length_append, ih, ha]
    simp only [List.length_cons, List.length_nil]
    omega

theorem hugeText_units : (hugeText.data.flatMap utf16BEUnits).length = 4294967296 := by
  have hd : hugeText.data = List.replicate 2147483648 'a' := rfl
  rw [hd, replicate_a_units]

/-- C13, counterexample: for the text of 2^31 characters `a` the payload has
2^32 + 5 bytes, and the size field of the frame is `00 00 00 05`. -/
theorem CreateTextFrame_size_field_wraps :
    ((CreateTextFrame (stringBytes "TIT2") hugeText).1.drop 4).take 4 = [0, 0, 0, 5] ∧
    (CreateTextFrame (stringBytes "TIT2") hugeText).1.length = 10 + 4294967301 := by
  constructor
  · rw [CreateTextFrame_size_field _ _ (by decide), hugeText_units]
  · rw [CreateTextFrame_length, hugeText_units]
    rfl

/-- C13, amended: for a 4-byte identifier the frame is the identifier, four
size bytes, the flag bytes `00 00`, the encoding byte `01`, the text in
UTF-16BE behind its byte-order mark, and `00 00`.  With `n` the number of
bytes after the 10-byte frame header, which is 1 + the length of the encoded
text + 2, the size bytes denote `n` modulo 2^32 in big-endian order, so `n`
itself when `n < 2^32`. -/
theorem CreateTextFrame_layout (id : List Nat) (text : String) (hid : id.length = 4) :
    ∃ (sz : List Nat) (n : Nat), sz.length = 4 ∧ (∀ b ∈ sz, b < 256) ∧
      n = 1 + ([0xfe, 0xff] ++ text.data.flatMap utf16BEUnits).length + 2 ∧
      bigEndian sz = n % 4294967296 ∧ (n < 4294967296 → bigEndian sz = n) ∧
      CreateTextFrame id text =
        (id ++ sz ++ [0x00, 0x00] ++ [0x01] ++
          ([0xfe, 0xff] ++ text.data.flatMap utf16BEUnits) ++ [0x00, 0x00], none) ∧
      (n : Int) = (((CreateTextFrame id text).1.length : Nat) : Int) - 10 := by
  refine ⟨_, 5 + (text.data.flatMap utf16BEUnits).length, ?_, ?_, ?_,
    bigEndian_four _, ?_, ?_, ?_⟩
  · rfl
  · intro b hb
    simp only [List.mem_cons, List.mem_singleton, List.not_mem_nil, or_false] at hb
    rcases hb with rfl | rfl | rfl | rfl <;> exact Nat.mod_lt _ (by decide)
  · simp only [List.length_append, List.length_cons, List.length_nil]
    omega
  · intro hn
    rw [bigEndian_four, Nat.mod_eq_of_lt hn]
  · rw [CreateTextFrame_eq]
    simp
  · rw [CreateTextFrame_eq]
    simp only [List.length_append, List.length_cons, List.length_nil, hid]
    push_cast
    omega

/-- Witness of C13 (amended) for the identifier "TIT2" and the text "Test Song". -/
theorem CreateTextFrame_layout_witness :
    ∃ (sz : List Nat) (n : Nat), sz.length = 4 ∧ (∀ b ∈ sz, b < 256) ∧
      n = 1 + ([0xfe, 0xff] ++ "Test Song".data.flatMap utf16BEUnits).length + 2 ∧
      bigEndian sz = n % 4294967296 ∧ (n < 4294967296 → bigEndian sz = n) ∧
      CreateTextFrame (stringBytes "TIT2") "Test Song" =
        (stringBytes "TIT2" ++ sz ++ [0x00, 0x00] ++ [0x01] ++
          ([0xfe, 0xff] ++ "Test Song".data.flatMap utf16BEUnits) ++ [0x00, 0x00], none) ∧
      (n : Int) = (((CreateTextFrame (stringBytes "TIT2") "Test Song").1.length : Nat) : Int) - 10 :=
  CreateTextFrame_layout (stringBytes "TIT2") "Test Song" (by decide)

/-! ## `decodeSynchsafe` for any size -/

/-- The digit that byte `i` contributes to the sum of `N` digits. -/
theorem synchsafe_term_le (d N i : Nat) :
    (d &&& 0x7f) <<< (7 * (N - 1 - i)) ≤ 127 * 2 ^ (7 * (N - 1 - i)) := by
  have hm : d &&& 0x7f = d % 128 := Nat.and_pow_two_sub_one_eq_mod d 7
  rw [hm, Nat.shiftLeft_eq]
  exact Nat.mul_le_mul_right _ (by omega)

/-- The first `k` rounds of the loop of `decodeSynchsafe` do not overflow when
`N ≤ 9`: they give the sum of the first `k` digits. -/
theorem decodeSynchsafe_partial (data : List Nat) (N : Nat) (hlen : data.length = N)
    (hN : N ≤ 9) (k : Nat) (hk : k ≤ N) :
    (List.range k).foldlM
      (fun (result : Int) i => (data.get? i).map fun b =>
        wrapInt (result + wrapInt (((b &&& 0x7f) <<< (7 * (N - 1 - i)) : Nat) : Int)))
      (0 : Int) =
      some ((((List.range k).map fun i =>
        (data.getD i 0 &&& 0x7f) <<< (7 * (N - 1 - i))).sum : Nat) : Int) ∧
    ((List.range k).map fun i => (data.getD i 0 &&& 0x7f) <<< (7 * (N - 1 - i))).sum +
      2 ^ (7 * (N - k)) ≤ 2 ^ (7 * N) := by
  induction k with
  | zero => simp
  | succ k ih =>
    obtain ⟨ih1, ih2⟩ := ih (by omega)
    have hget : data.get? k = some (data.getD k 0) := by
      rw [List.get?_eq_getElem?, List.getD_eq_getElem?_getD]
      rw [List.getElem?_eq_getElem (by omega)]
      rfl
    have hterm := synchsafe_term_le (data.getD k 0) N k
    have hpow : 2 ^ (7 * (N - k)) = 128 * 2 ^ (7 * (N - 1 - k)) := by
      rw [show 7 * (N - k) = 7 + 7 * (N - 1 - k) by omega, pow_add]
      norm_num
    have hpow2 : 2 ^ (7 * (N - (k + 1))) = 2 ^ (7 * (N - 1 - k)) := by
      rw [show N - (k + 1) = N - 1 - k by omega]
    have htop : 2 ^ (7 * N) ≤ 2 ^ 63 := Nat.pow_le_pow_right (by norm_num) (by omega)
    have h63 : (2 : Nat) ^ 63 = 9223372036854775808 := by norm_num
    have hq : 0 < 2 ^ (7 * (N - 1 - k)) := Nat.pow_pos (by norm_num)
    rw [List.range_succ, List.foldlM_append, ih1, List.map_append, List.sum_append]
    simp only [List.foldlM_cons, List.foldlM_nil, List.map_cons, List.map_nil, List.sum_cons,
      List.sum_nil, hget, Option.map_some', Option.some_bind, Option.bind_eq_bind, pure,
      Nat.add_zero, hpow2]
    generalize ((List.range k).map fun i =>
      (data.getD i 0 &&& 0x7f) <<< (7 * (N - 1 - i))).sum = P at *
    generalize (data.getD k 0 &&& 0x7f) <<< (7 * (N - 1 - k)) = t at *
    generalize 2 ^ (7 * (N - 1 - k)) = q at *
    constructor
    · rw [wrapInt_of_small (t : Int) (by omega) (by omega),
        wrapInt_of_small ((P : Int) + (t : Int)) (by omega) (by omega)]
      push_cast
      rfl
    · omega

/-- C16, counterexample: for the 10 bytes `01 00 00 00 00 00 00 00 00 00` and
`N = 10` the spec's sum is 2^63, while `decodeSynchsafe` gives -2^63, a value
outside `[0, 2^70)`: the shift by 63 overflows the 64-bit `int`. -/
theorem decodeSynchsafe_overflow_ten :
    synchsafeSum [1, 0, 0, 0, 0, 0, 0, 0, 0, 0] 10 = 9223372036854775808 ∧
    decodeSynchsafe [1, 0, 0, 0, 0, 0, 0, 0, 0, 0] 10 = some (-9223372036854775808) := by
  decide

/-- C16, amended: for a sequence of `N` bytes with `N ≤ 9`, `decodeSynchsafe`
returns the sum over `i` in `[0, N)` of `(bytes[i] & 0x7F) << (7*(N-1-i))`,
and this value lies in `[0, 2^(7*N))`. -/
theorem decodeSynchsafe_eq_sum (data : List Nat) (N : Nat) (hlen : data.length = N)
    (hN : N ≤ 9) :
    decodeSynchsafe data N = some ((synchsafeSum data N : Nat) : Int) ∧
    (0 : Int) ≤ ((synchsafeSum data N : Nat) : Int) ∧
    ((synchsafeSum data N : Nat) : Int) < 2 ^ (7 * N) := by
  obtain ⟨h1, h2⟩ := decodeSynchsafe_partial data N hlen hN N (le_refl _)
  refine ⟨h1, by positivity, ?_⟩
  have : synchsafeSum data N < 2 ^ (7 * N) := by
    unfold synchsafeSum
    simp only [Nat.sub_self, Nat.mul_zero, pow_zero] at h2
    omega
  exact_mod_cast this

/-- Witness of C16 (amended) for the 4 bytes `FF 00 01 80`, whose top bits are
ignored: the value is `0x7F << 21 + 1 << 7`. -/
theorem decodeSynchsafe_eq_sum_witness :
    decodeSynchsafe [0xff, 0x00, 0x01, 0x80] 4 =
      some ((synchsafeSum [0xff, 0x00, 0x01, 0x80] 4 : Nat) : Int) ∧
    (0 : Int) ≤ ((synchsafeSum [0xff, 0x00, 0x01, 0x80] 4 : Nat) : Int) ∧
    ((synchsafeSum [0xff, 0x00, 0x01, 0x80] 4 : Nat) : Int) < 2 ^ (7 * 4) :=
  decodeSynchsafe_eq_sum [0xff, 0x00, 0x01, 0x80] 4 (by decide) (by decide)

/-! ## The number of probes of the scan -/

theorem scanMPEGFrameCount_error (r : File) (ex : Bool) (size : Int) (b : Bool) (e : GoError)
    (h : isExistMP3Frame r size = (b, some e)) :
    scanMPEGFrameCount r ex size =
      ((ex, size, some (GoError.errorf "mpeg frame not found")), 1) := by
  rw [scanMPEGFrameCount]
  split
  · rfl
  · rename_i heq; exact absurd (h.symm.trans heq) (by simp)
  · rename_i heq; exact absurd (h.symm.trans heq) (by simp)

theorem scanMPEGFrameCount_found (r : File) (ex : Bool) (size : Int)
    (h : isExistMP3Frame r size = (true, none)) :
    scanMPEGFrameCount r ex size = ((ex, size, none), 1) := by
  rw [scanMPEGFrameCount]
  split
  · rename_i heq; exact absurd (h.symm.trans heq) (by simp)
  · rfl
  · rename_i heq; exact absurd (h.symm.trans heq) (by simp)

theorem scanMPEGFrameCount_step (r : File) (ex : Bool) (size : Int)
    (h : isExistMP3Frame r size = (false, none)) :
    scanMPEGFrameCount r ex size =
      ((scanMPEGFrameCount r ex (size + 1)).1, (scanMPEGFrameCount r ex (size + 1)).2 + 1) := by
  rw [scanMPEGFrameCount]
  split
  · rename_i heq; exact absurd (h.symm.trans heq) (by simp)
  · rename_i heq; exact absurd (h.symm.trans heq) (by simp)
  · rfl

theorem scanMPEGFrame_error (r : File) (ex : Bool) (size : Int) (b : Bool) (e : GoError)
    (h : isExistMP3Frame r size = (b, some e)) :
    scanMPEGFrame r ex size = (ex, size, some (GoError.errorf "mpeg frame not found")) := by
  rw [scanMPEGFrame]
  split
  · rfl
  · rename_i heq; exact absurd (h.symm.trans heq) (by simp)
  · rename_i heq; exact absurd (h.symm.trans heq) (by simp)

/-- The counted scan returns what the scan returns, after at most
`len - start` probes when `start < len`, and after one probe otherwise. -/
theorem scanMPEGFrameCount_bound (r : File) (ex : Bool) (start : Int) :
    (scanMPEGFrameCount r ex start).1 = scanMPEGFrame r ex start ∧
    1 ≤ (scanMPEGFrameCount r ex start).2 ∧
    ((scanMPEGFrameCount r ex start).2 : Int) ≤ max 1 ((r.length : Int) - start) := by
  by_cases hneg : start < 0
  · have hp := isExistMP3Frame_neg r start hneg
    rw [scanMPEGFrameCount_error r ex start _ _ hp, scanMPEGFrame_error r ex start _ _ hp]
    simp
  · obtain ⟨n, rfl⟩ := Int.eq_ofNat_of_zero_le (not_lt.mp hneg)
    generalize hd : r.length - n = d
    induction d using Nat.strong_induction_on generalizing n with
    | _ d ih =>
      by_cases hlen : r.length < n + 2
      · have hp := isExistMP3Frame_short r n (by omega) (by exact_mod_cast hlen)
        rw [scanMPEGFrameCount_error r ex _ _ _ hp, scanMPEGFrame_eof r ex n hlen]
        simp
      · have hfull := isExistMP3Frame_full r n (by omega) (by omega)
        simp only [Int.toNat_ofNat] at hfull
        by_cases hs : syncPairAt r n
        · rw [scanMPEGFrameCount_found r ex _ (hfull.1 hs), scanMPEGFrame_found_here r ex n hs]
          simp
        · rw [scanMPEGFrameCount_step r ex _ (hfull.2 hs), scanMPEGFrame_step r ex n (by omega) hs]
          have := ih (r.length - (n + 1)) (by omega) (n + 1) (by omega) rfl
          obtain ⟨h1, h2, h3⟩ := this
          refine ⟨h1, by simp, ?_⟩
          simp only
          push_cast at h3 ⊢
          omega

/-- C17: `getID3v2TagSize` returns on every finite byte source.  The scan
makes at most `max(0, len - start) + 1` probes (the counted scan returns the
result of the scan), and every probe at an offset greater than `len - 2` is a
short read that ends the loop with an error. -/
theorem getID3v2TagSize_terminates (r : File) :
    (∃ res, getID3v2TagSize r = some res) ∧
    (∀ (ex : Bool) (start : Int),
      (scanMPEGFrameCount r ex start).1 = scanMPEGFrame r ex start ∧
      ((scanMPEGFrameCount r ex start).2 : Int) ≤ max 0 ((r.length : Int) - start) + 1) ∧
    (∀ (ex : Bool) (off : Int), (r.length : Int) - 2 < off →
      (isExistMP3Frame r off).1 = false ∧ (isExistMP3Frame r off).2 ≠ none ∧
      scanMPEGFrameCount r ex off =
        ((ex, off, some (GoError.errorf "mpeg frame not found")), 1)) := by
  refine ⟨?_, ?_, ?_⟩
  · rcases getID3v2TagSize_cases r with ⟨_, h⟩ | ⟨_, h⟩ | ⟨_, _, _, h⟩ | ⟨_, _, _, _, _, _, h⟩ <;>
      exact ⟨_, h⟩
  · intro ex start
    obtain ⟨h1, _, h3⟩ := scanMPEGFrameCount_bound r ex start
    refine ⟨h1, ?_⟩
    omega
  · intro ex off hoff
    by_cases hneg : off < 0
    · have hp := isExistMP3Frame_neg r off hneg
      refine ⟨by rw [hp], by rw [hp]; simp, scanMPEGFrameCount_error r ex off _ _ hp⟩
    · have hp := isExistMP3Frame_short r off (by omega) (by omega)
      refine ⟨by rw [hp], by rw [hp]; simp, scanMPEGFrameCount_error r ex off _ _ hp⟩

/-! ## The file copy -/

theorem CopyN_full (src : File) (pos : Nat) (n : Int) (h0 : 0 ≤ n)
    (h : (pos : Int) + n ≤ src.length) :
    CopyN src pos n = ((src.drop pos).take n.toNat, n, none) := by
  have hl : (((src.drop pos).take n.toNat).length : Int) = n := by
    rw [length_take_drop]
    omega
  simp only [CopyN, hl, if_true]

theorem tag_or_nothing (tag : List Nat) : (if tag.length > 0 then tag else []) = tag := by
  cases tag <;> simp

/-- C18: for an original file, a tag, and `offset ≥ 0`, `size ≥ 0` with
`offset + size` within the file, `Copy` returns the name of the temporary file
and no error; afterwards that file holds the tag followed by
`original[offset : offset+size]`, and the original file and every other file
are unchanged. -/
theorem Copy_tag_then_frames (fs : FileSystem) (tempfile filename : String)
    (original tag : List Nat) (offset size : Int)
    (hf : fs filename = some original) (hfresh : fs tempfile = none)
    (ho : 0 ≤ offset) (hs : 0 ≤ size) (hlen : offset + size ≤ (original.length : Int)) :
    (Copy fs (some tempfile) filename offset size tag).1 = (tempfile, none) ∧
    (Copy fs (some tempfile) filename offset size tag).2 tempfile =
      some (tag ++ (original.drop offset.toNat).take size.toNat) ∧
    (Copy fs (some tempfile) filename offset size tag).2 filename = some original ∧
    ∀ other, other ≠ tempfile →
      (Copy fs (some tempfile) filename offset size tag).2 other = fs other := by
  have hne : filename ≠ tempfile := by
    intro he
    rw [he, hfresh] at hf
    simp at hf
  have hcopy := CopyN_full original offset.toNat size hs (by omega)
  simp only [Copy, hf, not_lt.mpr ho, if_false, hcopy, tag_or_nothing, ne_eq, not_true_eq_false,
    or_self, if_false]
  refine ⟨trivial, by simp [writeFile], by simp [writeFile, hne, hf], ?_⟩
  intro other hother
  simp [writeFile, hother]

/-- Witness of C18: copying the 4 bytes at offset 15 of `paddedFile` behind a
3-byte tag. -/
theorem Copy_tag_then_frames_witness :
    (Copy (writeFile (fun _ => none) "song.mp3" paddedFile) (some "tmp_1") "song.mp3" 15 4
      [1, 2, 3]).1 = ("tmp_1", none) ∧
    (Copy (writeFile (fun _ => none) "song.mp3" paddedFile) (some "tmp_1") "song.mp3" 15 4
      [1, 2, 3]).2 "tmp_1" = some [1, 2, 3, 0xff, 0xfb, 0x90, 0x00] :=
  have h := Copy_tag_then_frames (writeFile (fun _ => none) "song.mp3" paddedFile) "tmp_1"
    "song.mp3" paddedFile [1, 2, 3] 15 4 (by decide) (by decide) (by decide) (by decide)
    (by decide)
  ⟨h.1, h.2.1⟩

/-! ## Guessing artist and title -/

theorem indexFrom_first (sep : List Nat) (s : List Nat) (base i : Nat)
    (h : sep.isPrefixOf (s.drop i) = true)
    (hmin : ∀ j, j < i → sep.isPrefixOf (s.drop j) = false) :
    indexFrom sep s base = ((base + i : Nat) : Int) := by
  induction s generalizing base i with
  | nil =>
    have hi : i = 0 := by
      by_contra hne
      have := hmin 0 (Nat.pos_of_ne_zero hne)
      simp only [List.drop_nil] at h this
      rw [h] at this
      exact absurd this (by simp)
    subst hi
    simp only [List.drop_nil] at h
    simp [indexFrom, h]
  | cons c cs ih =>
    cases i with
    | zero =>
      simp only [List.drop_zero] at h
      simp [indexFrom, h]
    | succ i =>
      have h0 := hmin 0 (Nat.succ_pos _)
      simp only [List.drop_zero] at h0
      simp only [indexFrom, h0, Bool.false_eq_true, if_false]
      rw [ih (base + 1) i (by simpa using h)
        (fun j hj => by simpa using hmin (j + 1) (Nat.succ_lt_succ hj))]
      congr 1
      omega

theorem indexFrom_none (sep : List Nat) (s : List Nat) (base : Nat)
    (h : ∀ j, j ≤ s.length → sep.isPrefixOf (s.drop j) = false) :
    indexFrom sep s base = -1 := by
  induction s generalizing base with
  | nil =>
    have := h 0 (le_refl _)
    simp only [List.drop_nil] at this
    simp [indexFrom, this]
  | cons c cs ih =>
    have h0 := h 0 (Nat.zero_le _)
    simp only [List.drop_zero] at h0
    simp only [indexFrom, h0, Bool.false_eq_true, if_false]
    exact ih (base + 1) (fun j hj => by simpa using h (j + 1) (Nat.succ_le_succ hj))

theorem isPrefixOf_sep (l : List Nat) :
    (stringBytes " - ").isPrefixOf l = true ↔ l.take 3 = stringBytes " - " := by
  rw [List.isPrefixOf_iff_prefix, List.prefix_iff_eq_take]
  have : (stringBytes " - ").length = 3 := by decide
  rw [this]
  exact eq_comm

theorem Index_first (n : List Nat) (i : Nat)
    (h : (n.drop i).take 3 = stringBytes " - ")
    (hmin : ∀ j, j < i → (n.drop j).take 3 ≠ stringBytes " - ") :
    Index n (stringBytes " - ") = (i : Int) := by
  have := indexFrom_first (stringBytes " - ") n 0 i ((isPrefixOf_sep _).mpr h)
    (fun j hj => by
      exact Bool.eq_false_iff.mpr (mt (isPrefixOf_sep (n.drop j)).mp (hmin j hj)))
  simpa [Index] using this

theorem Index_none (n : List Nat)
    (h : ∀ j, (n.drop j).take 3 ≠ stringBytes " - ") :
    Index n (stringBytes " - ") = -1 :=
  indexFrom_none (stringBytes " - ") n 0 (fun j _ => by
    exact Bool.eq_false_iff.mpr (mt (isPrefixOf_sep (n.drop j)).mp (h j)))

/-- C19: when the first " - " in the name is at index `i` with `i > 0` and
`i + 3 < len`, `guessFromFilename` returns the artist `n[0:i]` and the title
`n[i+3:]`, both non-empty, with `artist + " - " + title = n`; in every other
case it returns the title "-" and the artist "-". -/
theorem guessFromFilename_spec (n : List Nat) :
    (∀ i : Nat, (n.drop i).take 3 = stringBytes " - " →
      (∀ j, j < i → (n.drop j).take 3 ≠ stringBytes " - ") → 0 < i → i + 3 < n.length →
      guessFromFilename n = (n.drop (i + 3), n.take i) ∧
      n.take i ++ stringBytes " - " ++ n.drop (i + 3) = n ∧
      n.take i ≠ [] ∧ n.drop (i + 3) ≠ []) ∧
    ((∀ i : Nat, (n.drop i).take 3 = stringBytes " - " →
      (∀ j, j < i → (n.drop j).take 3 ≠ stringBytes " - ") → i = 0 ∨ i + 3 = n.length) →
      guessFromFilename n = (stringBytes "-", stringBytes "-")) := by
  constructor
  · intro i h hmin hi hlen
    have hidx := Index_first n i h hmin
    refine ⟨?_, ?_, ?_, ?_⟩
    · have h1 : ¬ ((i : Int) = -1 ∨ (i : Int) = 0 ∨ (i : Int) + 3 = (n.length : Int)) := by omega
      simp only [guessFromFilename, hidx, h1, if_false]
      rw [show ((i : Int) + 3).toNat = i + 3 by omega, Int.toNat_ofNat]
    · rw [← h, List.append_assoc]
      have : List.drop (i + 3) n = List.drop 3 (List.drop i n) := by
        rw [List.drop_drop]
      rw [this, List.take_append_drop, List.take_append_drop]
    · intro he
      have h2 : (n.take i).length = 0 := by rw [he]; rfl
      rw [List.length_take] at h2
      omega
    · intro he
      have h2 : (n.drop (i + 3)).length = 0 := by rw [he]; rfl
      rw [List.length_drop] at h2
      omega
  · intro hall
    by_cases hex : ∃ j, (n.drop j).take 3 = stringBytes " - "
    · have hfind := Nat.find_spec hex
      have hmin : ∀ j, j < Nat.find hex → (n.drop j).take 3 ≠ stringBytes " - " :=
        fun j hj => Nat.find_min hex hj
      have hidx := Index_first n (Nat.find hex) hfind hmin
      have hcase := hall (Nat.find hex) hfind hmin
      have h1 : ((Nat.find hex : Nat) : Int) = -1 ∨ ((Nat.find hex : Nat) : Int) = 0 ∨
          ((Nat.find hex : Nat) : Int) + 3 = (n.length : Int) := by
        rcases hcase with h0 | h3
        · exact Or.inr (Or.inl (by exact_mod_cast h0))
        · exact Or.inr (Or.inr (by exact_mod_cast h3))
      simp only [guessFromFilename, hidx, h1, if_true]
    · have hidx := Index_none n (fun j hj => hex ⟨j, hj⟩)
      simp [guessFromFilename, hidx]

/-! ## Independence from the tag body -/

theorem syncPairAt_congr (f g : File) (s q : Nat) (hd : f.drop s = g.drop s) (hq : s ≤ q) :
    syncPairAt f q ↔ syncPairAt g q := by
  have e : ∀ r : File, r.drop q = (r.drop s).drop (q - s) := by
    intro r
    rw [List.drop_drop]
    congr 1
    omega
  unfold syncPairAt
  rw [e f, e g, hd]

/-- The scan from `s` reads only the bytes at and after `s`. -/
theorem scanMPEGFrame_congr (f g : File) (ex : Bool) (s : Nat)
    (hd : f.drop s = g.drop s) (hlen : f.length = g.length) :
    scanMPEGFrame f ex (s : Int) = scanMPEGFrame g ex (s : Int) := by
  generalize hdist : f.length - s = d
  induction d using Nat.strong_induction_on generalizing s with
  | _ d ih =>
    by_cases hshort : f.length < s + 2
    · rw [scanMPEGFrame_eof f ex s hshort, scanMPEGFrame_eof g ex s (by omega)]
    · by_cases hs : syncPairAt f s
      · rw [scanMPEGFrame_found_here f ex s hs,
          scanMPEGFrame_found_here g ex s ((syncPairAt_congr f g s s hd (le_refl _)).mp hs)]
      · have hs2 : ¬ syncPairAt g s := fun h =>
          hs ((syncPairAt_congr f g s s hd (le_refl _)).mpr h)
        rw [scanMPEGFrame_step f ex s (by omega) hs, scanMPEGFrame_step g ex s (by omega) hs2]
        have hd1 : f.drop (s + 1) = g.drop (s + 1) := by
          have e : ∀ r : File, r.drop (s + 1) = (r.drop s).drop 1 := by
            intro r
            rw [List.drop_drop]
          rw [e f, e g, hd]
        exact_mod_cast ih (f.length - (s + 1)) (by omega) (s + 1) hd1 rfl

/-- What the header tests and the size field read lies in the first `10 + h` bytes. -/
theorem header_bytes (r : File) (h : Nat) (hh : h ≤ 1) :
    r.take 3 = (r.take (10 + h)).take 3 ∧
    (r.drop 1).take 3 = ((r.take (10 + h)).drop 1).take 3 ∧
    (r.drop (h + 6)).take 4 = ((r.take (10 + h)).drop (h + 6)).take 4 := by
  refine ⟨?_, ?_, ?_⟩
  · rw [List.take_take]
    congr 1
    omega
  · rw [List.drop_take, List.take_take]
    congr 1
    omega
  · rw [List.drop_take, List.take_take]
    congr 1
    omega

/-- C20: two files of the same length that agree on the first `10 + h` bytes
and on every byte from `h + 10 + S` on, where a header is detected at `h` and
the size field decodes to `S`, give the same result of `getID3v2TagSize`; a
frame offset it returns is never below `h + 10 + S`, so never inside the
declared tag body. -/
theorem getID3v2TagSize_ignores_tag_body (f g : File) (h : Nat) (S : Int)
    (hh : headerAt f h)
    (hS : decodeSynchsafe ((f.drop (h + 6)).take 4) 4 = some S)
    (hhead : f.take (10 + h) = g.take (10 + h))
    (htail : f.drop (h + 10 + S.toNat) = g.drop (h + 10 + S.toNat))
    (hlen : f.length = g.length) :
    getID3v2TagSize f = getID3v2TagSize g ∧
    ∀ (ex : Bool) (p : Int), getID3v2TagSize f = some (ex, p, none) →
      (h : Int) + 10 + S ≤ p := by
  have hle : h ≤ 1 := by rcases hh with ⟨rfl, _⟩ | ⟨rfl, _⟩ <;> omega
  obtain ⟨f1, f2, f3⟩ := header_bytes f h hle
  obtain ⟨g1, g2, g3⟩ := header_bytes g h hle
  have hhg : headerAt g h := by
    rcases hh with ⟨h0, hm⟩ | ⟨h1, hm0, hm1⟩
    · exact Or.inl ⟨h0, by rw [g1, ← hhead, ← f1]; exact hm⟩
    · refine Or.inr ⟨h1, ?_, ?_⟩
      · rw [g1, ← hhead, ← f1]; exact hm0
      · rw [g2, ← hhead, ← f2]; exact hm1
  have hSg : decodeSynchsafe ((g.drop (h + 6)).take 4) 4 = some S := by
    rw [g3, ← hhead, ← f3]; exact hS
  have hl4 : ((f.drop (h + 6)).take 4).length = 4 :=
    le_antisymm (List.length_take_le _ _) (decodeSynchsafe_four_length _ _ hS)
  obtain ⟨hS0, _⟩ := decodeSynchsafe_four_range _ _ hS hl4
  obtain ⟨s, rfl⟩ := Int.eq_ofNat_of_zero_le hS0
  simp only [Int.toNat_ofNat] at htail
  have hstart : ((s : Int) + (10 + (h : Int))) = ((h + 10 + s : Nat) : Int) := by
    push_cast; ring
  have hf := getID3v2TagSize_header f h s hh hS
  have hg := getID3v2TagSize_header g h s hhg hSg
  rw [hstart] at hf hg
  constructor
  · rw [hf, hg, scanMPEGFrame_congr f g true (h + 10 + s) htail hlen]
  · intro ex p hp
    rw [hf] at hp
    simp only [Option.some.injEq] at hp
    obtain ⟨_, hle2, _, _⟩ := scanMPEGFrame_ok f true ex (h + 10 + s) p hp
    push_cast at hle2
    omega

/-- Witness of C19 for the name "Queen - Bohemian Rhapsody", with " - " first
at index 5. -/
theorem guessFromFilename_spec_witness :
    guessFromFilename (stringBytes "Queen - Bohemian Rhapsody") =
      (stringBytes "Bohemian Rhapsody", stringBytes "Queen") :=
  ((guessFromFilename_spec (stringBytes "Queen - Bohemian Rhapsody")).1 5 (by decide)
    (by intro j hj; interval_cases j <;> decide) (by decide) (by decide)).1

/-- Witness of C20: `paddedFile` and `syncInBodyFile` differ only in the tag
body, where the second holds `FF FB`; the probe gives the same result. -/
theorem getID3v2TagSize_ignores_tag_body_witness :
    getID3v2TagSize paddedFile = getID3v2TagSize syncInBodyFile :=
  (getID3v2TagSize_ignores_tag_body paddedFile syncInBodyFile 0 2 (by decide) (by decide)
    (by decide) (by decide) (by decide)).1

end Rmid3tag
